import Mathlib

/-!
Verification of the legacy-configuration upgrade engine of the distgo
dist plugin (`distgo/config/internal/legacy/legacy.go`).

The Go code is shallowly embedded: script text is modelled as `List Char`
(`Str`), Go slices as `List`, Go `nil`-able pointers as `Option`, Go maps
that the code only populates and never re-reads as association lists in
insertion order, and fallible operations as `Except`.  A Go runtime panic
(nil-pointer dereference, failed type assertion) is modelled as a
distinguished error constructor, since it also aborts the upgrade.

Definitions are transcribed from the source; where a definition instead
follows the natural-language specification (because the corresponding
code is outside the packaged sources), its doc comment starts with
`Modelled from the spec:`.
-/

set_option maxRecDepth 20000

/-- Script text, modelled as a list of characters (Go `string`). -/
abbrev Str := List Char

/-- Auxiliary scanner for `replaceAll`.  The `Nat` argument counts input
characters that belong to an occurrence of the pattern that has already
been replaced and must therefore be consumed without being copied. -/
def replaceAllAux (p r : Str) : Nat → Str → Str
  | n + 1, _ :: rest => replaceAllAux p r n rest
  | _, [] => []
  | 0, c :: rest =>
    if p.isPrefixOf (c :: rest) && !p.isEmpty then
      r ++ replaceAllAux p r (p.length - 1) rest
    else
      c :: replaceAllAux p r 0 rest

/-- Embedding of Go `strings.Replace(s, p, r, -1)` for a non-empty pattern
`p`: replace every leftmost non-overlapping occurrence of `p` in `s` by
`r`.  (The engine only ever calls this with patterns of the form `"$" + v`,
which are non-empty, so Go's special case for an empty pattern is never
exercised; for an empty pattern this embedding copies the input.) -/
def replaceAll (p r s : Str) : Str :=
  replaceAllAux p r 0 s

/-- Prepends a character to the first segment of a segment list. -/
def consHead (c : Char) : List Str → List Str
  | [] => [[c]]
  | l :: ls => (c :: l) :: ls

/-- Auxiliary scanner for `splitPat`; the `Nat` argument plays the same
role as in `replaceAllAux`. -/
def splitPatAux (p : Str) : Nat → Str → List Str
  | n + 1, _ :: rest => splitPatAux p n rest
  | _, [] => [[]]
  | 0, c :: rest =>
    if p.isPrefixOf (c :: rest) && !p.isEmpty then
      [] :: splitPatAux p (p.length - 1) rest
    else
      consHead c (splitPatAux p 0 rest)

/-- The greedy decomposition of `s` along leftmost non-overlapping
occurrences of the pattern `p`: the segments between the occurrences. -/
def splitPat (p s : Str) : List Str :=
  splitPatAux p 0 s

/-- `containsSeq p s` holds when `p` occurs as a contiguous substring of
`s` (Go `strings.Contains`). -/
def containsSeq (p s : Str) : Bool :=
  s.tails.any fun t => p.isPrefixOf t

/-- Joins segments with a separator: `joinWith sep [a, b, c] = a ++ sep ++ b ++ sep ++ c`. -/
def joinWith (sep : Str) : List Str → Str
  | [] => []
  | [l] => l
  | l :: ls => l ++ sep ++ joinWith sep ls

/-- `GreedySubst p r s t`: `t` is obtained from `s` by replacing
occurrences of `p` by `r` and changing nothing else — both strings are
interleavings of one common list of `p`-free segments, with `p` between
the segments of `s` and `r` between the segments of `t`. -/
def GreedySubst (p r s t : Str) : Prop :=
  ∃ segs : List Str,
    (∀ seg ∈ segs, containsSeq p seg = false) ∧
    joinWith p segs = s ∧ joinWith r segs = t

/-- Splits a string at every newline character: the list of its lines
(a trailing newline contributes a final empty line). -/
def splitNl : Str → List Str
  | [] => [[]]
  | c :: rest =>
    if c = '\n' then [] :: splitNl rest
    else consHead c (splitNl rest)

/-- `endsWithNewline s` is true when the last character of `s` is a
newline (Go `strings.HasSuffix(s, "\n")`). -/
def endsWithNewline (s : Str) : Bool :=
  s.getLast? == some '\n'

/-- The interpreter marker line prepended to a fresh script. -/
def shebangLine : Str := "#!/bin/bash\n".toList

/-- Embedding of `appendToScript` (legacy.go): appends `ap` to `script`,
prepending `#!/bin/bash` when `script` is empty and guaranteeing that the
result ends in a newline. -/
def appendToScript (script ap : Str) : Str :=
  let s1 := if script.isEmpty then script ++ shebangLine else script
  let s2 := s1 ++ ap
  if endsWithNewline s2 then s2 else s2 ++ ['\n']

/-- `"$" + v`: the unbraced form of environment variable `v`. -/
def dollarVar (v : Str) : Str := '$' :: v

/-- `"${" + v + "}"`: the braced form of environment variable `v`. -/
def bracedVar (v : Str) : Str := '$' :: '\x7b' :: (v ++ ['\x7d'])

/-- Embedding of `translateVar` (legacy.go): renames both the unbraced
and the braced form of environment variable `oldVar` to `newVar`. -/
def translateVar (i oldVar newVar : Str) : Str :=
  replaceAll (bracedVar oldVar) (bracedVar newVar)
    (replaceAll (dollarVar oldVar) (dollarVar newVar) i)

/-- The legacy working-directory variable name `DIST_DIR`. -/
def distDirName : Str := "DIST_DIR".toList

/-- The current working-directory variable name `DIST_WORK_DIR`. -/
def distWorkDirName : Str := "DIST_WORK_DIR".toList

/-- The snapshot-flag variable name `IS_SNAPSHOT`. -/
def isSnapshotName : Str := "IS_SNAPSHOT".toList

/-- The synthesized fragment that derives `IS_SNAPSHOT` from the version
string (legacy.go, `translateEnvVars`). -/
def isSnapshotScript : Str :=
  ("### START: auto-generated back-compat code for \"IS_SNAPSHOT\" variable ###\n"
    ++ "IS_SNAPSHOT=0\n"
    ++ "if [[ $VERSION =~ .+g[-+.]?[a-fA-F0-9]\x7b3,\x7d$ ]]; then IS_SNAPSHOT=1; fi\n"
    ++ "### END: auto-generated back-compat code for \"IS_SNAPSHOT\" variable ###\n").toList

/-- Embedding of `translateEnvVars` (legacy.go): prepends the
`IS_SNAPSHOT` fragment when the text mentions `IS_SNAPSHOT`, then renames
`DIST_DIR` to `DIST_WORK_DIR`. -/
def translateEnvVars (i : Str) : Str :=
  let out := if containsSeq isSnapshotName i then isSnapshotScript ++ i else i
  translateVar out distDirName distWorkDirName

/-- Embedding of `inputDirScriptContent` (legacy.go): the synthesized
fragment reproducing the retired `input-dir` behavior. -/
def inputDirScriptContent (inputDir : String) : Str :=
  ("### START: auto-generated back-compat code for \"input-dir\" behavior ###\n"
    ++ "cp -r \"$PROJECT_DIR\"/" ++ inputDir ++ "/. \"$DIST_WORK_DIR\"\n"
    ++ "find \"$DIST_WORK_DIR\" -type f -name .gitkeep -exec rm \x27\x7b\x7d\x27 \\;\n"
    ++ "### END: auto-generated back-compat code for \"input-dir\" behavior ###").toList

/-- Embedding of `binDistInitShScript` (legacy.go): the synthesized
fragment reproducing the retired `omit-init-sh: false` launcher script of
the bin dist. -/
def binDistInitShScript : Str :=
  ("### START: auto-generated back-compat code for \"omit-init-sh: false\" behavior for bin dist ###\n"
    ++ "read -d \x27\x27 GODELUPGRADED_scriptContent <<\"EOF\"\n"
    ++ "#!/bin/bash\n"
    ++ "set -euo pipefail\n"
    ++ "BIN_DIR=\"$(cd \"$(dirname \"$0\")\" && pwd)\"\n"
    ++ "# determine OS\n"
    ++ "OS=\"\"\n"
    ++ "case \"$(uname)\" in\n"
    ++ "  Darwin*)\n"
    ++ "    OS=darwin\n"
    ++ "    ;;\n"
    ++ "  Linux*)\n"
    ++ "    OS=linux\n"
    ++ "    ;;\n"
    ++ "  *)\n"
    ++ "    echo \"Unsupported operating system: $(uname)\"\n"
    ++ "    exit 1\n"
    ++ "    ;;\n"
    ++ "esac\n"
    ++ "# determine executable location based on OS\n"
    ++ "CMD=$BIN_DIR/$OS-amd64/\x7b\x7b.ProductName\x7d\x7d\n"
    ++ "# verify that executable exists\n"
    ++ "if [ ! -e \"$CMD\" ]; then\n"
    ++ "    echo \"Executable $CMD does not exist\"\n"
    ++ "    exit 1\n"
    ++ "fi\n"
    ++ "# invoke appropriate executable\n"
    ++ "$CMD \"$@\"\n"
    ++ "EOF\n"
    ++ "GODELUPGRADED_templated=$\x7bGODELUPGRADED_scriptContent//\\\x7b\\\x7b.ProductName\\\x7d\\\x7d/$PRODUCT\x7d\n"
    ++ "echo \"$GODELUPGRADED_templated\" > \"$DIST_WORK_DIR\"/bin/\"$PRODUCT\".sh\n"
    ++ "chmod 755 \"$DIST_WORK_DIR\"/bin/\"$PRODUCT\".sh\n"
    ++ "### END: auto-generated back-compat code for \"omit-init-sh: false\" behavior for bin dist ###").toList

/-- The first line of `binDistInitShScript`, used to recognise the
synthesized launcher fragment inside a migrated script. -/
def binDistStartMarker : Str :=
  "### START: auto-generated back-compat code for \"omit-init-sh: false\" behavior for bin dist ###".toList

/-! ## Legacy schema model (legacy.go data types) -/

namespace Legacy

/-- A GOOS/GOARCH pair (external `osarch.OSArch`, carried opaquely). -/
structure OSArch where
  os : String := ""
  arch : String := ""
deriving DecidableEq

/-- Path matcher configuration (external `matcher.NamesPathsCfg`, copied
verbatim by the upgrade and never inspected). -/
structure NamesPathsCfg where
  names : List String := []
  paths : List String := []
deriving DecidableEq

/-- Legacy `Build` section.  `legacy-config` inline marker fields of the
payload structs are modelled by a `legacy : Bool` field. -/
structure Build where
  skip : Bool := false
  script : Str := []
  mainPkg : String := ""
  outputDir : String := ""
  buildArgsScript : Str := []
  versionVar : String := ""
  environment : List (String × String) := []
  osArchs : List OSArch := []
deriving DecidableEq

/-- Legacy `Run` section. -/
structure Run where
  args : List String := []
deriving DecidableEq

/-- Legacy `BinDist` payload. -/
structure BinDist where
  legacy : Bool := false
  omitInitSh : Option Bool := none
  initShTemplateFile : String := ""
deriving DecidableEq

/-- Legacy `ManualDist` payload. -/
structure ManualDist where
  legacy : Bool := false
  extension : String := ""
deriving DecidableEq

/-- Legacy `OSArchBinDist` payload. -/
structure OSArchBinDist where
  legacy : Bool := false
  osArchs : List OSArch := []
deriving DecidableEq

/-- Legacy `SLSDist` payload.  The free-form `manifest-extensions` map
(Go `map[string]interface{}`) is carried opaquely as key/value pairs: the
engine never inspects it, it only re-marshals the whole payload. -/
structure SLSDist where
  legacy : Bool := false
  initShTemplateFile : String := ""
  manifestTemplateFile : String := ""
  serviceArgs : String := ""
  productType : String := ""
  manifestExtensions : List (String × String) := []
  reloadable : Bool := false
  ymlValidationExclude : NamesPathsCfg := {}
deriving DecidableEq

/-- Legacy `RPMDist` payload. -/
structure RPMDist where
  legacy : Bool := false
  release : String := ""
  configFiles : List String := []
  beforeInstallScript : Str := []
  afterInstallScript : Str := []
  afterRemoveScript : Str := []
deriving DecidableEq

/-- The dynamic `DistInfo.Info` field (Go `interface{}`): after decoding,
it holds the typed payload matching the discriminator, or an untyped bag
(`raw`) for unknown discriminators. -/
inductive DistPayload where
  | sls (d : SLSDist)
  | bin (d : BinDist)
  | osarchbin (d : OSArchBinDist)
  | manual (d : ManualDist)
  | rpm (d : RPMDist)
  | raw
deriving DecidableEq

/-- Legacy `DistInfo`: dist-type discriminator plus payload. -/
structure DistInfo where
  type_ : String := ""
  info : DistPayload := .raw
deriving DecidableEq

/-- Legacy `Almanac` publish payload. -/
structure Almanac where
  legacy : Bool := false
  metadata : List (String × String) := []
  tags : List String := []
deriving DecidableEq

/-- Legacy `Publish` section. -/
structure Publish where
  groupID : String := ""
  almanac : Almanac := {}
deriving DecidableEq

/-- Legacy `Dist` section (one entry of `RawDistConfigs`). -/
structure Dist where
  outputDir : String := ""
  inputDir : String := ""
  inputProducts : List String := []
  script : Str := []
  distType : DistInfo := {}
  publish : Publish := {}
deriving DecidableEq

/-- Legacy docker dependency. -/
structure DockerDep where
  product : String := ""
  type_ : String := ""
  targetFile : String := ""
deriving DecidableEq

/-- Legacy `SLSDockerImageInfo` payload. -/
structure SLSDockerImageInfo where
  legacy : Bool := false
  groupID : String := ""
  productType : String := ""
  extensions : List (String × String) := []
deriving DecidableEq

/-- The dynamic `DockerImageInfo.Data` field (Go `interface{}`). -/
inductive DockerPayload where
  | slsInfo (d : SLSDockerImageInfo)
  | raw
deriving DecidableEq

/-- Legacy `DockerImageInfo`: builder-type discriminator plus payload. -/
structure DockerImageInfo where
  type_ : String := ""
  data : DockerPayload := .raw
deriving DecidableEq

/-- Legacy `DockerImage` entry. -/
structure DockerImage where
  repository : String := ""
  tag : String := ""
  contextDir : String := ""
  deps : List DockerDep := []
  info : DockerImageInfo := {}
  buildArgsScript : Str := []
deriving DecidableEq

/-- Legacy `Product`. -/
structure Product where
  build : Build := {}
  run : Run := {}
  dist : List Dist := []
  dockerImages : List DockerImage := []
  defaultPublish : Publish := {}
deriving DecidableEq

/-- Legacy `Project`.  The Go `Products` map is modelled as an
association list; the engine only iterates its (unique) keys in sorted
order, so the embedding sorts the de-duplicated keys. -/
structure Project where
  legacy : Bool := false
  products : List (String × Product) := []
  buildOutputDir : String := ""
  distOutputDir : String := ""
  distScriptInclude : Str := []
  groupID : String := ""
  exclude : NamesPathsCfg := {}
deriving DecidableEq

end Legacy

/-! ## Opaque plugin payload bytes and the current (v0) schema model -/

/-- Marshalled configuration bytes handed to plugin `ConfigUpgrader`s.
`yaml.Marshal` on the plain legacy payload structs cannot fail and always
produces non-empty output, so it is modelled as a total, injective
constructor per payload kind; `raw` stands for arbitrary plugin-produced
bytes. -/
inductive Bytes where
  | marshaledSLSDist (d : Legacy.SLSDist)
  | marshaledOSArchBinDist (d : Legacy.OSArchBinDist)
  | marshaledManualDist (d : Legacy.ManualDist)
  | marshaledRPMDist (d : Legacy.RPMDist)
  | marshaledAlmanac (a : Legacy.Almanac)
  | marshaledSLSDockerImageInfo (d : Legacy.SLSDockerImageInfo)
  | raw (s : Str)
deriving DecidableEq

/-- An opaque decoded `yaml.MapSlice`: ordered key/value pairs.  The
engine stores it without inspecting it. -/
structure MapSlice where
  entries : List (String × String) := []
deriving DecidableEq

namespace V0

/-- Modelled from the spec: the current-schema `v0.BuildConfig`.  The v0
package is not among the packaged sources; the fields are those the
upgrade engine populates (§3 "Current Schema Model"), each a `nil`-able
pointer in Go, hence an `Option`. -/
structure BuildConfig where
  mainPkg : Option String := none
  outputDir : Option String := none
  buildArgsScript : Option Str := none
  versionVar : Option String := none
  environment : Option (List (String × String)) := none
  osArchs : Option (List Legacy.OSArch) := none
deriving DecidableEq

/-- Modelled from the spec: the current-schema `v0.DisterConfig` — a
plugin type name, a dist script and an opaque plugin payload. -/
structure DisterConfig where
  type_ : Option String := none
  script : Option Str := none
  config : Option MapSlice := none
deriving DecidableEq

/-- Modelled from the spec: the current-schema `v0.DistConfig`; `disters`
is a map keyed by dist identifier, modelled as an association list in
insertion order. -/
structure DistConfig where
  outputDir : Option String := none
  disters : Option (List (String × DisterConfig)) := none
deriving DecidableEq

/-- Modelled from the spec: the current-schema `v0.RunConfig`. -/
structure RunConfig where
  args : Option (List String) := none
deriving DecidableEq

/-- Modelled from the spec: the current-schema `v0.PublisherConfig`. -/
structure PublisherConfig where
  config : Option MapSlice := none
deriving DecidableEq

/-- Modelled from the spec: the current-schema `v0.PublishConfig`. -/
structure PublishConfig where
  groupID : Option String := none
  publishInfo : Option (List (String × PublisherConfig)) := none
deriving DecidableEq

/-- Modelled from the spec: the current-schema `v0.DockerBuilderConfig`. -/
structure DockerBuilderConfig where
  type_ : Option String := none
  contextDir : Option String := none
  inputDists : Option (List String) := none
  tagTemplates : Option (List String) := none
  config : Option MapSlice := none
deriving DecidableEq

/-- Modelled from the spec: the current-schema `v0.DockerConfig`. -/
structure DockerConfig where
  dockerBuildersConfig : Option (List (String × DockerBuilderConfig)) := none
deriving DecidableEq

/-- Modelled from the spec: the current-schema `v0.ProductConfig`. -/
structure ProductConfig where
  build : Option BuildConfig := none
  run : Option RunConfig := none
  dist : Option DistConfig := none
  docker : Option DockerConfig := none
  dependencies : Option (List String) := none
  publish : Option PublishConfig := none
deriving DecidableEq

/-- Modelled from the spec: the current-schema `v0.ProjectConfig`. -/
structure ProjectConfig where
  products : Option (List (String × ProductConfig)) := none
  productDefaults : ProductConfig := {}
  scriptIncludes : Str := []
  exclude : Legacy.NamesPathsCfg := {}
deriving DecidableEq

end V0

namespace Legacy

/-- Errors produced by the upgrade engine.  Each constructor records the
data interpolated into the corresponding Go error message; `nilBuildCrash`
and the two `CastCrash` constructors model Go runtime panics (nil-pointer
dereference at the default-dist-synthesis check, failed type assertions on
the dynamic payload fields), which also abort the upgrade. -/
inductive UpgradeError where
  | buildScriptUnsupported (product : String)
  | tooManyDists (product : String)
  | unsupportedDistType (product : String) (distType : String)
  | initShTemplateUnsupported (product : String)
  | nilBuildCrash
  | distInfoCastCrash
  | dockerInfoCastCrash
  | unsupportedDockerDepType (product : String) (depType : String)
  | noDisterUpgrader (product : String) (msg : String)
  | disterUpgradeFailed (product : String) (msg : String)
  | unmarshalDisterConfigFailed (product : String) (msg : String)
  | noPublisherUpgrader (product : String) (msg : String)
  | publisherUpgradeFailed (product : String) (msg : String)
  | unmarshalPublisherConfigFailed (product : String) (msg : String)
  | noDockerBuilderUpgrader (product : String) (msg : String)
  | dockerBuilderUpgradeFailed (product : String) (msg : String)
  | unmarshalDockerBuilderConfigFailed (product : String) (msg : String)
deriving DecidableEq

/-- The product identifier interpolated into the error message, when the
error names one. -/
def UpgradeError.productOf : UpgradeError → Option String
  | .buildScriptUnsupported k => some k
  | .tooManyDists k => some k
  | .unsupportedDistType k _ => some k
  | .initShTemplateUnsupported k => some k
  | .nilBuildCrash => none
  | .distInfoCastCrash => none
  | .dockerInfoCastCrash => none
  | .unsupportedDockerDepType k _ => some k
  | .noDisterUpgrader k _ => some k
  | .disterUpgradeFailed k _ => some k
  | .unmarshalDisterConfigFailed k _ => some k
  | .noPublisherUpgrader k _ => some k
  | .publisherUpgradeFailed k _ => some k
  | .unmarshalPublisherConfigFailed k _ => some k
  | .noDockerBuilderUpgrader k _ => some k
  | .dockerBuilderUpgradeFailed k _ => some k
  | .unmarshalDockerBuilderConfigFailed k _ => some k

/-- Whether the error reports a legacy feature with no current
equivalent (spec §7 error taxonomy, "UnsupportedFeatureError"). -/
def UpgradeError.isUnsupportedFeature : UpgradeError → Bool
  | .buildScriptUnsupported _ => true
  | .tooManyDists _ => true
  | .unsupportedDistType _ _ => true
  | .initShTemplateUnsupported _ => true
  | .unsupportedDockerDepType _ _ => true
  | _ => false

/-- The three plugin `ConfigUpgrader` registries passed to the engine,
plus the yaml decoding of plugin-produced bytes into a `MapSlice`
(`yaml.UnmarshalStrict`), which the engine also treats as an external,
fallible black box. -/
structure Factories where
  disterUpgrader : String → Except String (Bytes → Except String Bytes)
  dockerBuilderUpgrader : String → Except String (Bytes → Except String Bytes)
  publisherUpgrader : String → Except String (Bytes → Except String Bytes)
  unmarshalMapSlice : Bytes → Except String MapSlice

/-- Go `stringPtr(x)` guarded by the recurring `if x != ""` check: the
optional copy of a non-empty string field. -/
def nonEmptyOpt (s : String) : Option String :=
  if s = "" then none else some s

/-- Embedding of `addDepIfNotPresent` (legacy.go): append a product
identifier unless already present. -/
def addDepIfNotPresent (deps : List String) (productID : String) : List String :=
  if productID ∈ deps then deps else deps ++ [productID]

/-- Modelled from the spec: the bin dister's type name (`bin.TypeName`,
whose defining package is not among the packaged sources; the legacy
discriminator for the same plugin is the string `bin`). -/
def binDisterTypeName : String := "bin"

/-- Modelled from the spec: the os-arch-bin dister's type name
(`osarchbin.TypeName`, defining package not among the packaged sources;
the spec names this plugin type `os-arch-bin`). -/
def osArchBinDisterTypeName : String := "os-arch-bin"

/-- Modelled from the spec: the manual dister's type name
(`manual.TypeName`, defining package not among the packaged sources). -/
def manualDisterTypeName : String := "manual"

/-- Modelled from the spec: the default docker builder's type name
(`defaultdockerbuilder.TypeName`, defining package not among the packaged
sources; assumed for images with no structured builder type). -/
def defaultDockerBuilderTypeName : String := "default"

/-- Embedding of the build-section translation (legacy.go lines 515-547):
skipped builds are bypassed entirely; a non-empty legacy build script is
a hard error; pass-through fields are copied only when non-default. -/
def buildSection (k : String) (p : Product) : Except UpgradeError (Option V0.BuildConfig) :=
  if p.build.skip then .ok none
  else if p.build.script ≠ [] then .error (.buildScriptUnsupported k)
  else .ok (some
    { mainPkg := nonEmptyOpt p.build.mainPkg
      outputDir := nonEmptyOpt p.build.outputDir
      buildArgsScript := if p.build.buildArgsScript = [] then none else some p.build.buildArgsScript
      versionVar := nonEmptyOpt p.build.versionVar
      environment := if p.build.environment.length > 0 then some p.build.environment else none
      osArchs := if p.build.osArchs.length > 0 then some p.build.osArchs else none })

/-- The default dist entry synthesized for products that declare build
OS/arch targets but no dist configuration (legacy.go lines 560-572). -/
def synthesizedOSArchBinDist (osArchs : List OSArch) : Dist :=
  { distType := { type_ := "os-arch-bin", info := .osarchbin { legacy := true, osArchs := osArchs } } }

/-- Embedding of the default-dist-synthesis step (legacy.go lines
556-573).  The Go condition `len(legacyProduct.Dist) == 0 &&
product.Build.OSArchs != nil && len(*product.Build.OSArchs) > 0`
dereferences `product.Build`, which is nil when the build was skipped:
for a skipped build with no dist entry this is a runtime panic, modelled
as `nilBuildCrash`. -/
def effectiveDist (buildCfg : Option V0.BuildConfig) (dist : List Dist) : Except UpgradeError (List Dist) :=
  if dist.length = 0 then
    match buildCfg with
    | none => .error .nilBuildCrash
    | some b =>
      match b.osArchs with
      | some osArchs =>
        if osArchs.length > 0 then .ok [synthesizedOSArchBinDist osArchs] else .ok dist
      | none => .ok dist
  else .ok dist

/-- Embedding of the dist-type switch (legacy.go lines 583-641): maps the
legacy discriminator to the current plugin type name, produces the
marshalled legacy payload to hand to the dister's upgrader (with the
`legacy-config` marker set), and for the bin type translates the retired
`omit-init-sh: false` behavior into a synthesized script instead. -/
def distTypeSwitch (k : String) (di : DistInfo) : Except UpgradeError (String × Option Str × Option Bytes) :=
  match di.type_, di.info with
  | "sls", .sls d => .ok ("sls", none, some (.marshaledSLSDist { d with legacy := true }))
  | "bin", .bin b =>
    if b.omitInitSh = some false then
      if b.initShTemplateFile ≠ "" then .error (.initShTemplateUnsupported k)
      else .ok (binDisterTypeName, some (appendToScript [] binDistInitShScript), none)
    else .ok (binDisterTypeName, none, none)
  | "os-arch-bin", .osarchbin d =>
    .ok (osArchBinDisterTypeName, none, some (.marshaledOSArchBinDist { d with legacy := true }))
  | "manual", .manual d =>
    .ok (manualDisterTypeName, none, some (.marshaledManualDist { d with legacy := true }))
  | "rpm", .rpm d => .ok ("rpm", none, some (.marshaledRPMDist { d with legacy := true }))
  | t, _ =>
    if t = "sls" ∨ t = "bin" ∨ t = "os-arch-bin" ∨ t = "manual" ∨ t = "rpm" then
      .error .distInfoCastCrash
    else .error (.unsupportedDistType k t)

/-- Embedding of the dister-upgrader delegation (legacy.go lines
643-657): when legacy payload bytes were produced, look up the dister's
`ConfigUpgrader`, run it, and decode its output as a `yaml.MapSlice`. -/
def disterConfigSection (f : Factories) (k : String) (distType : String) :
    Option Bytes → Except UpgradeError (Option MapSlice)
  | none => .ok none
  | some bytes => do
    let upgr ← (f.disterUpgrader distType).mapError (UpgradeError.noDisterUpgrader k)
    let upgradedBytes ← (upgr bytes).mapError (UpgradeError.disterUpgradeFailed k)
    let cfgMapSlice ← (f.unmarshalMapSlice upgradedBytes).mapError (UpgradeError.unmarshalDisterConfigFailed k)
    .ok (some cfgMapSlice)

/-- One fragment-append on the optional dister script, mirroring the
recurring Go pattern `if cfg.Script == nil { cfg.Script = ptr("") };
cfg.Script = ptr(appendToScript(*cfg.Script, frag))`. -/
def accumulateScript (cur : Option Str) (frag : Str) : Option Str :=
  some (appendToScript (cur.getD []) frag)

/-- The dist-script assembly of the dist branch (legacy.go lines 595-608,
664-670, 679-685): the optional bin launcher fragment, then the
`input-dir` back-compat fragment, then the translated free-form legacy
dist script. -/
def distScriptAssembly (script0 : Option Str) (inputDir : String) (userScript : Str) : Option Str :=
  let s1 := if inputDir ≠ "" then accumulateScript script0 (inputDirScriptContent inputDir) else script0
  if userScript ≠ [] then accumulateScript s1 (translateEnvVars userScript) else s1

/-- Embedding of the publish translation of the dist branch (legacy.go
lines 691-728): a per-dist group-id override, and delegation of legacy
Almanac metadata/tags to the `artifactory-almanac` publisher's
upgrader. -/
def publishSection (f : Factories) (k : String) (pub : Publish) : Except UpgradeError (Option V0.PublishConfig) :=
  let pc0 : Option V0.PublishConfig :=
    if pub.groupID ≠ "" then some { groupID := some pub.groupID } else none
  if pub.almanac.tags.length > 0 ∨ pub.almanac.metadata.length > 0 then do
    let upgr ← (f.publisherUpgrader "artifactory-almanac").mapError (UpgradeError.noPublisherUpgrader k)
    let upgradedBytes ← (upgr (.marshaledAlmanac { pub.almanac with legacy := true })).mapError (UpgradeError.publisherUpgradeFailed k)
    let cfgMapSlice ← (f.unmarshalMapSlice upgradedBytes).mapError (UpgradeError.unmarshalPublisherConfigFailed k)
    let base := pc0.getD {}
    .ok (some { base with publishInfo := some [("artifactory-almanac", { config := some cfgMapSlice })] })
  else .ok pc0

/-- Embedding of the dist branch for the single legacy dist entry
(legacy.go lines 579-728): returns the migrated dist configuration, the
dependency list derived from `input-products`, and the migrated publish
configuration. -/
def distSection (f : Factories) (k : String) (legacyDist : Dist) :
    Except UpgradeError (V0.DistConfig × Option (List String) × Option V0.PublishConfig) := do
  let (typeName, script0, disterBytes) ← distTypeSwitch k legacyDist.distType
  let config ← disterConfigSection f k legacyDist.distType.type_ disterBytes
  let disterCfg : V0.DisterConfig :=
    { type_ := some typeName
      script := distScriptAssembly script0 legacyDist.inputDir legacyDist.script
      config := config }
  let deps : Option (List String) :=
    if legacyDist.inputProducts.length > 0 then
      some (legacyDist.inputProducts.foldl addDepIfNotPresent [])
    else none
  let publish ← publishSection f k legacyDist.publish
  .ok ({ outputDir := nonEmptyOpt legacyDist.outputDir
         disters := some [(typeName, disterCfg)] }, deps, publish)

/-- Embedding of one docker-dependency step (legacy.go lines 751-784):
threads the per-image `InputDists` list and the product's dependency
list; a dependency of unknown type is a hard error; the product's own
identifier is never added to the dependency list from here. -/
def dockerDepStep (k : String) (st : Option (List String) × Option (List String)) (dep : DockerDep) :
    Except UpgradeError (Option (List String) × Option (List String)) := do
  let inputDists ← (match dep.type_ with
    | "docker" => .ok st.1
    | "bin" => .ok (some (addDepIfNotPresent (st.1.getD []) (dep.product ++ "." ++ dep.type_)))
    | "sls" => .ok (some (addDepIfNotPresent (st.1.getD []) (dep.product ++ "." ++ dep.type_)))
    | t => .error (.unsupportedDockerDepType k t))
  let deps : Option (List String) :=
    some (if dep.product ≠ k then addDepIfNotPresent (st.2.getD []) dep.product else st.2.getD [])
  .ok (inputDists, deps)

/-- Embedding of the docker builder-type dispatch (legacy.go lines
787-815): a structured `sls` builder payload is marshalled with the
legacy marker and delegated to that builder's upgrader; otherwise the
default docker builder type is assumed. -/
def dockerBuilderInfoSection (f : Factories) (k : String) (info : DockerImageInfo) :
    Except UpgradeError (String × Option MapSlice) :=
  if info.type_ = "sls" then
    match info.data with
    | .slsInfo d => do
      let upgr ← (f.dockerBuilderUpgrader info.type_).mapError (UpgradeError.noDockerBuilderUpgrader k)
      let upgradedBytes ← (upgr (.marshaledSLSDockerImageInfo { d with legacy := true })).mapError (UpgradeError.dockerBuilderUpgradeFailed k)
      let cfgMapSlice ← (f.unmarshalMapSlice upgradedBytes).mapError (UpgradeError.unmarshalDockerBuilderConfigFailed k)
      .ok ("sls", some cfgMapSlice)
    | .raw => .error .dockerInfoCastCrash
  else .ok (defaultDockerBuilderTypeName, none)

/-- Embedding of the translation of one legacy docker image (legacy.go
lines 736-818). -/
def dockerImageUpgrade (f : Factories) (k : String) (deps : Option (List String)) (img : DockerImage) :
    Except UpgradeError (V0.DockerBuilderConfig × Option (List String)) := do
  let (inputDists, deps1) ← img.deps.foldlM (dockerDepStep k) (none, deps)
  let (builderType, builderCfg) ← dockerBuilderInfoSection f k img.info
  .ok ({ type_ := some builderType
         tagTemplates := if img.tag ≠ "" then some [img.tag] else none
         contextDir := nonEmptyOpt img.contextDir
         inputDists := inputDists
         config := builderCfg }, deps1)

/-- Embedding of the docker section (legacy.go lines 731-821): images are
translated in order, keyed by synthetic identifiers `docker-image-<i>`,
threading the product's dependency list. -/
def dockerSection (f : Factories) (k : String) (imgs : List DockerImage) (deps0 : Option (List String)) :
    Except UpgradeError (Option V0.DockerConfig × Option (List String)) :=
  if imgs.length > 0 then do
    let (builders, deps1) ← imgs.enum.foldlM
      (fun (acc : List (String × V0.DockerBuilderConfig) × Option (List String)) (iimg : Nat × DockerImage) => do
        let (cfg, deps') ← dockerImageUpgrade f k acc.2 iimg.2
        .ok (acc.1 ++ [("docker-image-" ++ toString iimg.1, cfg)], deps'))
      (([] : List (String × V0.DockerBuilderConfig)), deps0)
    .ok (some { dockerBuildersConfig := some builders }, deps1)
  else .ok (none, deps0)

/-- Embedding of the per-product body of the upgrade loop (legacy.go
lines 512-829, minus the map insert): build, run, default-dist
synthesis, the dist branch (with its dependency and publish results),
the docker section, and the empty-publish default injection. -/
def upgradeProduct (f : Factories) (defaultsHavePublish : Bool) (k : String) (legacyProduct : Product) :
    Except UpgradeError V0.ProductConfig := do
  let build ← buildSection k legacyProduct
  let run : Option V0.RunConfig :=
    if legacyProduct.run.args.length > 0 then some { args := some legacyProduct.run.args } else none
  let effDist ← effectiveDist build legacyProduct.dist
  let (distCfg, deps0, publish0) ←
    (match effDist with
     | [] => .ok (none, none, none)
     | [d] => (distSection f k d).map fun dr => (some dr.1, dr.2.1, dr.2.2)
     | _ :: _ :: _ => .error (.tooManyDists k))
  let (docker, deps1) ← dockerSection f k legacyProduct.dockerImages deps0
  let publish := if defaultsHavePublish && publish0.isNone then some {} else publish0
  .ok { build := build, run := run, dist := distCfg, docker := docker,
        dependencies := deps1, publish := publish }

/-- Insertion of a string into a sorted list (ascending). -/
def insertSortedString (x : String) : List String → List String
  | [] => [x]
  | y :: ys => if x ≤ y then x :: y :: ys else y :: insertSortedString x ys

/-- Embedding of Go `sort.Strings`: ascending lexicographic sort. -/
def sortStrings (l : List String) : List String := l.foldr insertSortedString []

/-- De-duplication preserving first-seen order (the spec's description
of dependency-list construction; also used to recover the unique key set
of the Go products map from the association list). -/
def firstSeenAux {α : Type} [DecidableEq α] (seen : List α) : List α → List α
  | [] => []
  | x :: xs => if x ∈ seen then firstSeenAux seen xs else x :: firstSeenAux (seen ++ [x]) xs

/-- De-duplication preserving first-seen order. -/
def firstSeen {α : Type} [DecidableEq α] (l : List α) : List α := firstSeenAux [] l

/-- Looks up a product by key in the association list modelling the Go
products map. -/
def lookupProduct (l : List (String × Product)) (k : String) : Product :=
  ((l.find? fun kv => kv.1 == k).map (·.2)).getD {}

/-- Embedding of `upgradeLegacyConfig` (legacy.go lines 465-834): the
project-wide defaults, the script includes, and the per-product loop in
sorted key order.  The Go function returns `*v0.ProjectConfig`, hence the
`Option` in the result; its only successful return is `&upgradedCfg`. -/
def upgradeLegacyConfig (f : Factories) (legacyCfg : Project) : Except UpgradeError (Option V0.ProjectConfig) := do
  let productDefaults : V0.ProductConfig :=
    { build := if legacyCfg.buildOutputDir ≠ "" then some { outputDir := some legacyCfg.buildOutputDir } else none
      dist := if legacyCfg.distOutputDir ≠ "" then some { outputDir := some legacyCfg.distOutputDir } else none
      publish := if legacyCfg.groupID ≠ "" then some { groupID := some legacyCfg.groupID } else none }
  let scriptIncludes := translateEnvVars legacyCfg.distScriptInclude
  let sortedProductsKeys := sortStrings (firstSeen (legacyCfg.products.map (·.1)))
  let products ← sortedProductsKeys.foldlM (fun (acc : List (String × V0.ProductConfig)) k => do
      let prod ← upgradeProduct f productDefaults.publish.isSome k (lookupProduct legacyCfg.products k)
      .ok (acc ++ [(k, prod)])) ([] : List (String × V0.ProductConfig))
  let productsOpt := if sortedProductsKeys.length > 0 then some products else none
  .ok (some { products := productsOpt
              productDefaults := productDefaults
              scriptIncludes := scriptIncludes
              exclude := legacyCfg.exclude })

/-- Embedding of `UpgradeConfig` (legacy.go lines 437-463) after the
initial strict decode: a `none` result of `upgradeLegacyConfig` would be
passed through as "no output bytes" (the unchanged sentinel); a `some`
result is marshalled to output bytes. -/
def upgradeConfig (f : Factories) (legacyCfg : Project) : Except UpgradeError (Option V0.ProjectConfig) := do
  let upgradedCfg ← upgradeLegacyConfig f legacyCfg
  match upgradedCfg with
  | none => .ok none
  | some cfg => .ok (some cfg)

/-- Decode errors of the single-or-list dist decoder. -/
inductive DistDecodeError where
  | atLeastOneRequired
  | yaml (msg : String)
deriving DecidableEq

/-- Embedding of `RawDistConfigs.UnmarshalYAML` (legacy.go lines
328-345).  The two underlying `unmarshal` attempts on the same node — as
a list of `Dist` and as a single `Dist` — are passed in as the outcomes
of the opaque yaml decoder. -/
def rawDistConfigsUnmarshal (listAttempt : Except String (List Dist)) (singleAttempt : Except String Dist) :
    Except DistDecodeError (List Dist) :=
  match listAttempt with
  | .ok multiple =>
    if multiple.length = 0 then .error .atLeastOneRequired else .ok multiple
  | .error _ =>
    match singleAttempt with
    | .ok single => .ok [single]
    | .error e => .error (.yaml e)

end Legacy

deriving instance DecidableEq for Except

/-- `noMatchStartsIn p a`: no occurrence of `p` can start inside `a`,
whatever text follows `a` — every non-empty suffix of `a` neither has `p`
as a prefix nor is itself a proper prefix of `p`. -/
def noMatchStartsIn (p a : Str) : Bool :=
  a.tails.all fun t => t.isEmpty || (!t.isPrefixOf p && !p.isPrefixOf t)

namespace Legacy

/-- A registry with no upgraders and a failing yaml decoder; used to
exercise code paths that must not consult the registries at all. -/
def failFactories : Factories :=
  { disterUpgrader := fun _ => .error "no upgrader"
    dockerBuilderUpgrader := fun _ => .error "no upgrader"
    publisherUpgrader := fun _ => .error "no upgrader"
    unmarshalMapSlice := fun _ => .error "bad yaml" }

/-- A registry whose upgraders succeed and pass bytes through unchanged,
with a yaml decoder that returns an empty mapping. -/
def okFactories : Factories :=
  { disterUpgrader := fun _ => .ok fun b => .ok b
    dockerBuilderUpgrader := fun _ => .ok fun b => .ok b
    publisherUpgrader := fun _ => .ok fun b => .ok b
    unmarshalMapSlice := fun _ => .ok {} }

/-- The dist input-product references of a legacy product: the
`input-products` of its single dist entry (empty unless exactly one
entry is present, matching the engine, which rejects more than one and
synthesizes entries with no input products). -/
def distInputProducts : List Dist → List String
  | [d] => d.inputProducts
  | _ => []

/-- The docker dependency-derived product references of a legacy
product, in declaration order across its images. -/
def dockerDepProducts (imgs : List DockerImage) : List String :=
  (imgs.map fun img => img.deps.map (·.product)).flatten

/-- The translation of a legacy dist-type discriminator to the current
plugin type name (the five arms of the dist-type switch). -/
def translatedDistTypeName : String → Option String
  | "sls" => some "sls"
  | "bin" => some binDisterTypeName
  | "os-arch-bin" => some osArchBinDisterTypeName
  | "manual" => some manualDisterTypeName
  | "rpm" => some "rpm"
  | _ => none

end Legacy

/-! ## Lemmas about the string machinery -/

theorem isPrefixOf_iff {p : Str} : ∀ {s : Str}, p.isPrefixOf s = true ↔ ∃ t : Str, p ++ t = s := by
  induction p with
  | nil => intro s; simp [List.isPrefixOf]
  | cons c p ih =>
    intro s
    cases s with
    | nil => simp [List.isPrefixOf]
    | cons d s' =>
      simp only [List.isPrefixOf, Bool.and_eq_true, beq_iff_eq, ih, List.cons_append,
        List.cons.injEq]
      constructor
      · rintro ⟨rfl, t, rfl⟩; exact ⟨t, rfl, rfl⟩
      · rintro ⟨t, rfl, rfl⟩; exact ⟨rfl, t, rfl⟩

theorem isPrefixOf_self_append {p t : Str} : p.isPrefixOf (p ++ t) = true :=
  isPrefixOf_iff.mpr ⟨t, rfl⟩

theorem replaceAllAux_skip (p r : Str) : ∀ (s : Str) (n : Nat),
    replaceAllAux p r n s = replaceAllAux p r 0 (s.drop n) := by
  intro s
  induction s with
  | nil => intro n; cases n <;> simp [replaceAllAux]
  | cons c rest ih =>
    intro n
    cases n with
    | zero => simp
    | succ m => simpa [replaceAllAux] using ih m

theorem replaceAll_nil (p r : Str) : replaceAll p r [] = [] := rfl

theorem replaceAll_pos (p r : Str) {s : Str} (hp : p ≠ []) (h : p.isPrefixOf s = true) :
    replaceAll p r s = r ++ replaceAll p r (s.drop p.length) := by
  cases s with
  | nil =>
    cases p with
    | nil => exact absurd rfl hp
    | cons c p' => simp [List.isPrefixOf] at h
  | cons c rest =>
    cases p with
    | nil => exact absurd rfl hp
    | cons a p' =>
      show replaceAllAux (a :: p') r 0 (c :: rest) = _
      rw [replaceAllAux]
      rw [if_pos (by simp [h, List.isEmpty])]
      rw [replaceAllAux_skip]
      rfl

theorem replaceAll_neg (p r : Str) {c : Char} {rest : Str}
    (h : (p.isPrefixOf (c :: rest) && !p.isEmpty) = false) :
    replaceAll p r (c :: rest) = c :: replaceAll p r rest := by
  show replaceAllAux p r 0 (c :: rest) = _
  rw [replaceAllAux, if_neg (by simp [h])]
  rfl

theorem splitPatAux_skip (p : Str) : ∀ (s : Str) (n : Nat),
    splitPatAux p n s = splitPatAux p 0 (s.drop n) := by
  intro s
  induction s with
  | nil => intro n; cases n <;> simp [splitPatAux]
  | cons c rest ih =>
    intro n
    cases n with
    | zero => simp
    | succ m => simpa [splitPatAux] using ih m

theorem splitPat_nil (p : Str) : splitPat p [] = [[]] := rfl

theorem splitPat_pos (p : Str) {s : Str} (hp : p ≠ []) (h : p.isPrefixOf s = true) :
    splitPat p s = [] :: splitPat p (s.drop p.length) := by
  cases s with
  | nil =>
    cases p with
    | nil => exact absurd rfl hp
    | cons c p' => simp [List.isPrefixOf] at h
  | cons c rest =>
    cases p with
    | nil => exact absurd rfl hp
    | cons a p' =>
      show splitPatAux (a :: p') 0 (c :: rest) = _
      rw [splitPatAux]
      rw [if_pos (by simp [h, List.isEmpty])]
      rw [splitPatAux_skip]
      rfl

theorem splitPat_neg (p : Str) {c : Char} {rest : Str}
    (h : (p.isPrefixOf (c :: rest) && !p.isEmpty) = false) :
    splitPat p (c :: rest) = consHead c (splitPat p rest) := by
  show splitPatAux p 0 (c :: rest) = _
  rw [splitPatAux, if_neg (by simp [h])]
  rfl

theorem consHead_ne_nil (c : Char) (ls : List Str) : consHead c ls ≠ [] := by
  cases ls <;> simp [consHead]

theorem splitPat_ne_nil (p s : Str) : splitPat p s ≠ [] := by
  cases s with
  | nil => simp [splitPat_nil]
  | cons c rest =>
    by_cases hm : (p.isPrefixOf (c :: rest) && !p.isEmpty) = true
    · have hp : p ≠ [] := by
        rcases (Bool.and_eq_true _ _).mp hm with ⟨_, h2⟩
        cases p <;> simp_all [List.isEmpty]
      rw [splitPat_pos p hp ((Bool.and_eq_true _ _).mp hm).1]
      simp
    · rw [splitPat_neg p (Bool.eq_false_iff.mpr hm)]
      exact consHead_ne_nil c _

theorem joinWith_consHead (sep : Str) (c : Char) (ls : List Str) :
    joinWith sep (consHead c ls) = c :: joinWith sep ls := by
  cases ls with
  | nil => rfl
  | cons l ls' =>
    cases ls' with
    | nil => rfl
    | cons l2 ls'' => simp [consHead, joinWith]

theorem joinWith_cons_ne (sep x : Str) (ls : List Str) (h : ls ≠ []) :
    joinWith sep (x :: ls) = x ++ sep ++ joinWith sep ls := by
  cases ls with
  | nil => exact absurd rfl h
  | cons y ys => rfl

theorem andPos_ne_nil {p : Str} {c : Char} {rest : Str}
    (hm : (p.isPrefixOf (c :: rest) && !p.isEmpty) = true) : p ≠ [] := by
  rcases (Bool.and_eq_true _ _).mp hm with ⟨_, h2⟩
  cases p <;> simp_all [List.isEmpty]

theorem drop_length_le {c : Char} {rest : Str} {p : Str} {m : Nat} (hp : p ≠ [])
    (hs : (c :: rest).length ≤ m + 1) : ((c :: rest).drop p.length).length ≤ m := by
  rw [List.length_drop]
  cases p with
  | nil => exact absurd rfl hp
  | cons a p' => simp at hs ⊢; omega

theorem joinWith_splitPat_aux (p : Str) :
    ∀ (n : Nat) (s : Str), s.length ≤ n → joinWith p (splitPat p s) = s := by
  intro n
  induction n with
  | zero =>
    intro s hs
    have : s = [] := by
      cases s with
      | nil => rfl
      | cons c t => simp at hs
    subst this; rfl
  | succ m ih =>
    intro s hs
    cases s with
    | nil => rfl
    | cons c rest =>
      by_cases hm : (p.isPrefixOf (c :: rest) && !p.isEmpty) = true
      · have hp : p ≠ [] := andPos_ne_nil hm
        have hpre : p.isPrefixOf (c :: rest) = true := ((Bool.and_eq_true _ _).mp hm).1
        rw [splitPat_pos p hp hpre,
          joinWith_cons_ne _ _ _ (splitPat_ne_nil _ _),
          ih _ (drop_length_le hp hs)]
        obtain ⟨t, ht⟩ := isPrefixOf_iff.mp hpre
        rw [← ht, List.drop_left]
        simp
      · rw [splitPat_neg p (Bool.eq_false_iff.mpr hm), joinWith_consHead,
          ih rest (by simp at hs; omega)]

theorem replaceAll_eq_joinWith_aux (p r : Str) :
    ∀ (n : Nat) (s : Str), s.length ≤ n → replaceAll p r s = joinWith r (splitPat p s) := by
  intro n
  induction n with
  | zero =>
    intro s hs
    have : s = [] := by
      cases s with
      | nil => rfl
      | cons c t => simp at hs
    subst this; rfl
  | succ m ih =>
    intro s hs
    cases s with
    | nil => rfl
    | cons c rest =>
      by_cases hm : (p.isPrefixOf (c :: rest) && !p.isEmpty) = true
      · have hp : p ≠ [] := andPos_ne_nil hm
        have hpre : p.isPrefixOf (c :: rest) = true := ((Bool.and_eq_true _ _).mp hm).1
        rw [splitPat_pos p hp hpre, replaceAll_pos p r hp hpre,
          joinWith_cons_ne _ _ _ (splitPat_ne_nil _ _),
          ih _ (drop_length_le hp hs)]
        simp
      · rw [splitPat_neg p (Bool.eq_false_iff.mpr hm),
          replaceAll_neg p r (Bool.eq_false_iff.mpr hm), joinWith_consHead,
          ih rest (by simp at hs; omega)]

theorem containsSeq_cons (p : Str) (c : Char) (l : Str) :
    containsSeq p (c :: l) = (p.isPrefixOf (c :: l) || containsSeq p l) := by
  simp [containsSeq, List.tails]

theorem containsSeq_nil_eq_false {p : Str} (hp : p ≠ []) : containsSeq p [] = false := by
  cases p with
  | nil => exact absurd rfl hp
  | cons a p' => simp [containsSeq, List.tails, List.isPrefixOf]

theorem splitPat_headD_aux (p : Str) :
    ∀ (n : Nat) (s : Str), s.length ≤ n → ∃ t : Str, (splitPat p s).headD [] ++ t = s := by
  intro n
  induction n with
  | zero =>
    intro s hs
    have : s = [] := by
      cases s with
      | nil => rfl
      | cons c t => simp at hs
    subst this; exact ⟨[], rfl⟩
  | succ m ih =>
    intro s hs
    cases s with
    | nil => exact ⟨[], rfl⟩
    | cons c rest =>
      by_cases hm : (p.isPrefixOf (c :: rest) && !p.isEmpty) = true
      · have hp : p ≠ [] := andPos_ne_nil hm
        have hpre : p.isPrefixOf (c :: rest) = true := ((Bool.and_eq_true _ _).mp hm).1
        rw [splitPat_pos p hp hpre]
        exact ⟨c :: rest, rfl⟩
      · rw [splitPat_neg p (Bool.eq_false_iff.mpr hm)]
        obtain ⟨t, ht⟩ := ih rest (by simp at hs; omega)
        rcases hg : splitPat p rest with _ | ⟨l, ls⟩
        · exact absurd hg (splitPat_ne_nil _ _)
        · rw [hg] at ht
          exact ⟨t, by simp [consHead, ← ht]⟩

theorem splitPat_seg_free_aux (p : Str) (hp : p ≠ []) :
    ∀ (n : Nat) (s : Str), s.length ≤ n → ∀ seg ∈ splitPat p s, containsSeq p seg = false := by
  intro n
  induction n with
  | zero =>
    intro s hs seg hseg
    have : s = [] := by
      cases s with
      | nil => rfl
      | cons c t => simp at hs
    subst this
    simp [splitPat_nil] at hseg
    subst hseg
    exact containsSeq_nil_eq_false hp
  | succ m ih =>
    intro s hs seg hseg
    cases s with
    | nil =>
      simp [splitPat_nil] at hseg
      subst hseg
      exact containsSeq_nil_eq_false hp
    | cons c rest =>
      by_cases hm : (p.isPrefixOf (c :: rest) && !p.isEmpty) = true
      · have hpre : p.isPrefixOf (c :: rest) = true := ((Bool.and_eq_true _ _).mp hm).1
        rw [splitPat_pos p hp hpre] at hseg
        rcases List.mem_cons.mp hseg with rfl | hseg'
        · exact containsSeq_nil_eq_false hp
        · exact ih _ (drop_length_le hp hs) seg hseg'
      · have hrest : rest.length ≤ m := by simp at hs; omega
        have hnom : p.isPrefixOf (c :: rest) = false := by
          rcases Bool.and_eq_false_iff.mp (Bool.eq_false_iff.mpr hm) with h | h
          · exact h
          · exfalso
            cases p with
            | nil => exact hp rfl
            | cons a p' => simp [List.isEmpty] at h
        rw [splitPat_neg p (Bool.eq_false_iff.mpr hm)] at hseg
        rcases hg : splitPat p rest with _ | ⟨l, ls⟩
        · exact absurd hg (splitPat_ne_nil _ _)
        · rw [hg] at hseg
          simp only [consHead] at hseg
          rcases List.mem_cons.mp hseg with rfl | hseg'
          · rw [containsSeq_cons]
            have h1 : containsSeq p l = false :=
              ih rest hrest l (by rw [hg]; exact List.mem_cons_self _ _)
            have h2 : p.isPrefixOf (c :: l) = false := by
              by_contra hcon
              have hcon' : p.isPrefixOf (c :: l) = true := by
                cases hiv : p.isPrefixOf (c :: l) with
                | false => exact absurd hiv hcon
                | true => rfl
              obtain ⟨u, hu⟩ := isPrefixOf_iff.mp hcon'
              obtain ⟨t, ht⟩ := splitPat_headD_aux p rest.length rest le_rfl
              rw [hg] at ht
              simp only [List.headD] at ht
              have : p ++ (u ++ t) = c :: rest := by
                rw [← List.append_assoc, hu]
                simp [← ht]
              rw [isPrefixOf_iff.mpr ⟨u ++ t, this⟩] at hnom
              exact Bool.true_eq_false.mp hnom
            rw [h1, h2]
            rfl
          · exact ih rest hrest seg (by rw [hg]; exact List.mem_cons_of_mem _ hseg')

/-- Greedy replacement is a substitution: `replaceAll p r s` is `s` with
the occurrences of `p` replaced by `r` and nothing else changed. -/
theorem greedySubst_replaceAll (p r : Str) (hp : p ≠ []) (s : Str) :
    GreedySubst p r s (replaceAll p r s) :=
  ⟨splitPat p s,
   splitPat_seg_free_aux p hp s.length s le_rfl,
   joinWith_splitPat_aux p s.length s le_rfl,
   (replaceAll_eq_joinWith_aux p r s.length s le_rfl).symm⟩

theorem isPrefixOf_append_right {p t b : Str} (h : p.isPrefixOf (t ++ b) = true)
    (hlen : p.length ≤ t.length) : p.isPrefixOf t = true := by
  obtain ⟨u, hu⟩ := isPrefixOf_iff.mp h
  have h1 : (p ++ u).take t.length = (t ++ b).take t.length := by rw [hu]
  rw [List.take_append_eq_append_take, List.take_of_length_le hlen, List.take_left] at h1
  rw [← h1]
  exact isPrefixOf_self_append

theorem isPrefixOf_of_append_left {p t b : Str} (h : p.isPrefixOf (t ++ b) = true)
    (hlen : t.length ≤ p.length) : t.isPrefixOf p = true := by
  obtain ⟨u, hu⟩ := isPrefixOf_iff.mp h
  have h1 : (p ++ u).take t.length = (t ++ b).take t.length := by rw [hu]
  rw [List.take_append_of_le_length hlen, List.take_left] at h1
  refine isPrefixOf_iff.mpr ⟨p.drop t.length, ?_⟩
  have h2 : t ++ p.drop t.length = p.take t.length ++ p.drop t.length := by rw [h1]
  rw [h2, List.take_append_drop]

theorem noMatchStartsIn_cons {p : Str} {c : Char} {a : Str}
    (h : noMatchStartsIn p (c :: a) = true) :
    ((c :: a).isPrefixOf p = false ∧ p.isPrefixOf (c :: a) = false) ∧ noMatchStartsIn p a = true := by
  simp only [noMatchStartsIn, List.tails, List.all_cons, Bool.and_eq_true] at h ⊢
  obtain ⟨h1, h2⟩ := h
  simp only [List.isEmpty, Bool.false_or, Bool.and_eq_true, Bool.not_eq_true'] at h1
  exact ⟨h1, h2⟩

theorem replaceAll_append_of_noMatch (p r : Str) :
    ∀ (a b : Str), noMatchStartsIn p a = true → replaceAll p r (a ++ b) = a ++ replaceAll p r b := by
  intro a
  induction a with
  | nil => intro b _; rfl
  | cons c a' ih =>
    intro b h
    obtain ⟨⟨hnt, hnp⟩, hrest⟩ := noMatchStartsIn_cons h
    show replaceAll p r (c :: (a' ++ b)) = c :: (a' ++ replaceAll p r b)
    have hnm : (p.isPrefixOf (c :: (a' ++ b)) && !p.isEmpty) = false := by
      cases hq : p.isPrefixOf (c :: (a' ++ b)) with
      | false => simp
      | true =>
        exfalso
        have hq' : p.isPrefixOf ((c :: a') ++ b) = true := by
          simpa using hq
        rcases le_or_lt p.length (c :: a').length with hle | hlt
        · rw [isPrefixOf_append_right hq' hle] at hnp
          exact Bool.true_eq_false.mp hnp
        · rw [isPrefixOf_of_append_left hq' (Nat.le_of_lt hlt)] at hnt
          exact Bool.true_eq_false.mp hnt
    rw [replaceAll_neg p r hnm, ih b hrest]

theorem replaceAll_self_of_noMatch (p r : Str) (a : Str) (h : noMatchStartsIn p a = true) :
    replaceAll p r a = a := by
  have := replaceAll_append_of_noMatch p r a [] h
  simpa [replaceAll_nil] using this

theorem translateEnvVars_eq (s : Str) :
    translateEnvVars s =
      (if containsSeq isSnapshotName s then isSnapshotScript else [])
        ++ translateVar s distDirName distWorkDirName := by
  unfold translateEnvVars
  by_cases h : containsSeq isSnapshotName s = true
  · simp only [h, if_true]
    unfold translateVar
    rw [replaceAll_append_of_noMatch _ _ _ _ (by decide),
      replaceAll_append_of_noMatch _ _ _ _ (by decide)]
  · simp only [Bool.not_eq_true] at h
    simp [h]

/-- C7: `translateEnvVars` prepends the `IS_SNAPSHOT`-derivation fragment
exactly when the text contains `IS_SNAPSHOT` (once, before any other
content), and otherwise rewrites exactly the occurrences of `$DIST_DIR`
to `$DIST_WORK_DIR` and of `${DIST_DIR}` to `${DIST_WORK_DIR}` (braces
written here `\x7b`/`\x7d`), altering no other substrings: the result of
each of the two rewrite passes is an interleaving of a common list of
pattern-free segments. -/
theorem c7_translate_env_vars (s : Str) :
    translateEnvVars s =
      (if containsSeq isSnapshotName s then isSnapshotScript else [])
        ++ translateVar s distDirName distWorkDirName
    ∧ GreedySubst (dollarVar distDirName) (dollarVar distWorkDirName) s
        (replaceAll (dollarVar distDirName) (dollarVar distWorkDirName) s)
    ∧ GreedySubst (bracedVar distDirName) (bracedVar distWorkDirName)
        (replaceAll (dollarVar distDirName) (dollarVar distWorkDirName) s)
        (translateVar s distDirName distWorkDirName) :=
  ⟨translateEnvVars_eq s,
   greedySubst_replaceAll _ _ (by decide) s,
   greedySubst_replaceAll _ _ (by decide) _⟩

theorem endsWithNewline_concat (x : Str) : endsWithNewline (x ++ ['\n']) = true := by
  simp [endsWithNewline, List.getLast?_concat]

theorem appendToScript_endsWithNewline (s a : Str) :
    endsWithNewline (appendToScript s a) = true := by
  unfold appendToScript
  by_cases h : endsWithNewline ((if s.isEmpty then s ++ shebangLine else s) ++ a) = true
  · simp only [h, if_true]
  · simp only [Bool.not_eq_true] at h
    simp only [h, Bool.false_eq_true, if_false]
    exact endsWithNewline_concat _

theorem appendToScript_empty_shebang (a : Str) :
    ∃ t : Str, appendToScript [] a = shebangLine ++ t := by
  unfold appendToScript
  simp only [List.isEmpty_nil, if_true, List.nil_append]
  by_cases h : endsWithNewline (shebangLine ++ a) = true
  · exact ⟨a, by simp [h]⟩
  · simp only [Bool.not_eq_true] at h
    exact ⟨a ++ ['\n'], by simp [h]⟩

theorem appendToScript_of_ne_nil (s a : Str) (h : s ≠ []) :
    ∃ t : Str, appendToScript s a = s ++ t := by
  unfold appendToScript
  have hne : s.isEmpty = false := by
    cases s with
    | nil => exact absurd rfl h
    | cons c s' => rfl
  simp only [hne, Bool.false_eq_true, if_false]
  by_cases h2 : endsWithNewline (s ++ a) = true
  · exact ⟨a, by simp [h2]⟩
  · simp only [Bool.not_eq_true] at h2
    exact ⟨a ++ ['\n'], by simp [h2]⟩

theorem appendToScript_ne_nil (s a : Str) : appendToScript s a ≠ [] := by
  by_cases h : s = []
  · subst h
    obtain ⟨t, ht⟩ := appendToScript_empty_shebang a
    rw [ht]
    simp [shebangLine]
  · obtain ⟨t, ht⟩ := appendToScript_of_ne_nil s a h
    rw [ht]
    cases s with
    | nil => exact absurd rfl h
    | cons c s' => simp

theorem foldl_appendToScript_extends (fs : List Str) :
    ∀ acc : Str, acc ≠ [] → endsWithNewline acc = true →
      (∃ t : Str, List.foldl appendToScript acc fs = acc ++ t)
      ∧ endsWithNewline (List.foldl appendToScript acc fs) = true := by
  induction fs with
  | nil => intro acc hne hnl; exact ⟨⟨[], by simp⟩, hnl⟩
  | cons g gs ih =>
    intro acc hne _
    obtain ⟨t1, ht1⟩ := appendToScript_of_ne_nil acc g hne
    have hstep := ih (appendToScript acc g) (appendToScript_ne_nil acc g)
      (appendToScript_endsWithNewline acc g)
    obtain ⟨⟨t2, ht2⟩, hnl2⟩ := hstep
    refine ⟨⟨t1 ++ t2, ?_⟩, ?_⟩
    · rw [List.foldl_cons, ht2, ht1, List.append_assoc]
    · simpa [List.foldl_cons] using hnl2

/-- C9: script accumulation via `appendToScript` — the first fragment
appended to an empty script is prefixed with the `#!/bin/bash` marker
line, every append leaves the accumulated script ending in a newline,
and both facts persist through any sequence of appends. -/
theorem c9_append_to_script_invariants :
    (∀ a : Str, ∃ t : Str, appendToScript [] a = shebangLine ++ t)
    ∧ (∀ s a : Str, endsWithNewline (appendToScript s a) = true)
    ∧ (∀ (f : Str) (fs : List Str),
        (∃ t : Str, List.foldl appendToScript [] (f :: fs) = shebangLine ++ t)
        ∧ endsWithNewline (List.foldl appendToScript [] (f :: fs)) = true) := by
  refine ⟨appendToScript_empty_shebang, appendToScript_endsWithNewline, ?_⟩
  intro f fs
  have h0 := foldl_appendToScript_extends fs (appendToScript [] f)
    (appendToScript_ne_nil [] f) (appendToScript_endsWithNewline [] f)
  obtain ⟨⟨t, ht⟩, hnl⟩ := h0
  obtain ⟨t0, ht0⟩ := appendToScript_empty_shebang f
  constructor
  · exact ⟨t0 ++ t, by rw [List.foldl_cons, ht, ht0, List.append_assoc]⟩
  · simpa [List.foldl_cons] using hnl

theorem splitNl_ne_nil (s : Str) : splitNl s ≠ [] := by
  cases s with
  | nil => simp [splitNl]
  | cons c rest =>
    by_cases hc : c = '\n'
    · simp [splitNl, hc]
    · simp only [splitNl, hc, if_false]
      exact consHead_ne_nil c _

theorem consHead_append (c : Char) (ls ms : List Str) (h : ls ≠ []) :
    consHead c (ls ++ ms) = consHead c ls ++ ms := by
  cases ls with
  | nil => exact absurd rfl h
  | cons l ls' => rfl

theorem splitNl_append_mid (a b : Str) : splitNl (a ++ '\n' :: b) = splitNl a ++ splitNl b := by
  induction a with
  | nil => simp [splitNl]
  | cons c a' ih =>
    show splitNl (c :: (a' ++ '\n' :: b)) = _
    by_cases hc : c = '\n'
    · subst hc
      simp [splitNl, ih]
    · simp only [splitNl, hc, if_false, ih]
      rw [consHead_append c _ _ (splitNl_ne_nil a')]

theorem splitNl_concat_nl (a : Str) : splitNl (a ++ ['\n']) = splitNl a ++ [[]] := by
  simpa [splitNl] using splitNl_append_mid a []

theorem endsWithNewline_iff {a : Str} :
    endsWithNewline a = true ↔ ∃ a' : Str, a = a' ++ ['\n'] := by
  induction a with
  | nil => simp [endsWithNewline]
  | cons c a' ih =>
    cases a' with
    | nil =>
      simp only [endsWithNewline, List.getLast?_singleton, beq_iff_eq, Option.some.injEq]
      constructor
      · rintro rfl; exact ⟨[], rfl⟩
      · rintro ⟨x, hx⟩
        cases x with
        | nil => simpa using hx
        | cons e x' =>
          simp only [List.cons_append, List.cons.injEq] at hx
          exact absurd hx.2 (by simp)
    | cons d a'' =>
      rw [show endsWithNewline (c :: d :: a'') = endsWithNewline (d :: a'') from by
        simp [endsWithNewline, List.getLast?_cons_cons], ih]
      constructor
      · rintro ⟨y, hy⟩; exact ⟨c :: y, by simp [hy]⟩
      · rintro ⟨x, hx⟩
        cases x with
        | nil => simpa using hx
        | cons e x' =>
          simp only [List.cons_append, List.cons.injEq] at hx
          exact ⟨x', hx.2⟩

theorem splitNl_append_of_endsNl (a b : Str) (h : endsWithNewline a = true) :
    splitNl (a ++ b) = (splitNl a).dropLast ++ splitNl b := by
  obtain ⟨a', rfl⟩ := endsWithNewline_iff.mp h
  rw [List.append_assoc]
  show splitNl (a' ++ '\n' :: b) = _
  rw [splitNl_append_mid, splitNl_concat_nl, List.dropLast_concat]

theorem mem_splitNl_of_endsNl {x : Str} {s : Str} (hnl : endsWithNewline s = true)
    (hx : x ∈ splitNl s) (hxne : x ≠ []) : x ∈ (splitNl s).dropLast := by
  obtain ⟨s', rfl⟩ := endsWithNewline_iff.mp hnl
  rw [splitNl_concat_nl] at hx ⊢
  rw [List.dropLast_concat]
  rcases List.mem_append.mp hx with h | h
  · exact h
  · simp at h
    exact absurd h hxne

theorem nil_mem_splitNl {s : Str} (hs : s = [] ∨ endsWithNewline s = true) : [] ∈ splitNl s := by
  rcases hs with rfl | h
  · simp [splitNl]
  · obtain ⟨s', rfl⟩ := endsWithNewline_iff.mp h
    rw [splitNl_concat_nl]
    simp

/-- Any line of `appendToScript s a` is the shebang line, a line of `s`,
or a line of `a` (provided `s` is empty or newline-terminated, which the
engine maintains). -/
theorem mem_splitNl_appendToScript {x : Str} (s a : Str)
    (hs : s = [] ∨ endsWithNewline s = true)
    (h : x ∈ splitNl (appendToScript s a)) :
    x = "#!/bin/bash".toList ∨ x ∈ splitNl s ∨ x ∈ splitNl a := by
  unfold appendToScript at h
  have hx2 : x ∈ splitNl ((if s.isEmpty then s ++ shebangLine else s) ++ a) ∨ x = [] := by
    by_cases hnl : endsWithNewline ((if s.isEmpty then s ++ shebangLine else s) ++ a) = true
    · rw [if_pos hnl] at h
      exact Or.inl h
    · rw [if_neg hnl, splitNl_concat_nl] at h
      rcases List.mem_append.mp h with h' | h'
      · exact Or.inl h'
      · right; simpa using h'
  rcases hx2 with hx2 | rfl
  · by_cases hse : s.isEmpty = true
    · have hsnil : s = [] := by
        cases s with
        | nil => rfl
        | cons c s' => simp [List.isEmpty] at hse
      subst hsnil
      rw [if_pos hse, List.nil_append] at hx2
      rw [splitNl_append_of_endsNl _ _ (by decide)] at hx2
      rcases List.mem_append.mp hx2 with h' | h'
      · left
        have : (splitNl shebangLine).dropLast = ["#!/bin/bash".toList] := by decide
        rw [this] at h'
        simpa using h'
      · exact Or.inr (Or.inr h')
    · have hsne : s ≠ [] := by
        cases s with
        | nil => simp [List.isEmpty] at hse
        | cons c s' => simp
      have hnl : endsWithNewline s = true := by
        rcases hs with rfl | h'
        · exact absurd rfl hsne
        · exact h'
      rw [if_neg hse] at hx2
      rw [splitNl_append_of_endsNl _ _ hnl] at hx2
      rcases List.mem_append.mp hx2 with h' | h'
      · exact Or.inr (Or.inl (List.dropLast_subset _ h'))
      · exact Or.inr (Or.inr h')
  · exact Or.inr (Or.inl (nil_mem_splitNl hs))

/-- A non-empty line already present in a newline-terminated script stays
a line of the script after any further `appendToScript`. -/
theorem mem_splitNl_appendToScript_left {x : Str} (s a : Str) (hne : s ≠ [])
    (hnl : endsWithNewline s = true) (hx : x ∈ splitNl s) (hxne : x ≠ []) :
    x ∈ splitNl (appendToScript s a) := by
  obtain ⟨t, ht⟩ := appendToScript_of_ne_nil s a hne
  rw [ht, splitNl_append_of_endsNl _ _ hnl]
  exact List.mem_append.mpr (Or.inl (mem_splitNl_of_endsNl hnl hx hxne))

/-! ## Lemmas about the upgrade engine -/

theorem except_bind_ok_iff {ε α β : Type} {e : Except ε α} {g : α → Except ε β} {b : β} :
    (e >>= g) = .ok b ↔ ∃ a, e = .ok a ∧ g a = .ok b := by
  cases e with
  | error err => simp [Bind.bind, Except.bind]
  | ok a => simp [Bind.bind, Except.bind]

theorem except_map_ok_iff {ε α β : Type} {e : Except ε α} {g : α → β} {b : β} :
    (e.map g) = .ok b ↔ ∃ a, e = .ok a ∧ g a = b := by
  cases e with
  | error err => simp [Except.map]
  | ok a => simp [Except.map]

theorem except_bind_err {ε α β : Type} (err : ε) (g : α → Except ε β) :
    ((Except.error err : Except ε α) >>= g) = .error err := rfl

namespace Legacy

theorem upgradeProduct_ok_elim {f : Factories} {dflt : Bool} {k : String} {p : Product}
    {prod : V0.ProductConfig} (hok : upgradeProduct f dflt k p = .ok prod) :
    ∃ (build : Option V0.BuildConfig) (effDist : List Dist)
      (dp : Option V0.DistConfig × Option (List String) × Option V0.PublishConfig)
      (docker : Option V0.DockerConfig × Option (List String)),
      buildSection k p = .ok build ∧
      effectiveDist build p.dist = .ok effDist ∧
      ((match effDist with
       | [] => Except.ok (none, none, none)
       | [d] => (distSection f k d).map fun dr => (some dr.1, dr.2.1, dr.2.2)
       | _ :: _ :: _ => Except.error (.tooManyDists k)) :
         Except UpgradeError (Option V0.DistConfig × Option (List String) × Option V0.PublishConfig)) = .ok dp ∧
      dockerSection f k p.dockerImages dp.2.1 = .ok docker ∧
      prod = { build := build
               run := if p.run.args.length > 0 then some { args := some p.run.args } else none
               dist := dp.1
               docker := docker.1
               dependencies := docker.2
               publish := if dflt && (dp.2.2).isNone then some {} else dp.2.2 } := by
  unfold upgradeProduct at hok
  rcases except_bind_ok_iff.mp hok with ⟨build, hb, hok⟩
  rcases except_bind_ok_iff.mp hok with ⟨effDist, he, hok⟩
  rcases except_bind_ok_iff.mp hok with ⟨dp, hd, hok⟩
  obtain ⟨distCfg, deps0, publish0⟩ := dp
  rcases except_bind_ok_iff.mp hok with ⟨docker, hk, hok⟩
  obtain ⟨dockerCfg, deps1⟩ := docker
  refine ⟨build, effDist, (distCfg, deps0, publish0), (dockerCfg, deps1), hb, he, hd, hk, ?_⟩
  simpa [pure, Except.pure] using hok.symm

end Legacy

theorem except_bind_ok {ε α β : Type} (a : α) (g : α → Except ε β) :
    ((Except.ok a : Except ε α) >>= g) = g a := rfl

namespace Legacy

theorem buildSection_skip {k : String} {p : Product} (h : p.build.skip = true) :
    buildSection k p = .ok none := by
  unfold buildSection
  rw [if_pos h]

theorem buildSection_script_error {k : String} {p : Product} (hskip : p.build.skip = false)
    (hscript : p.build.script ≠ []) :
    buildSection k p = .error (.buildScriptUnsupported k) := by
  unfold buildSection
  rw [if_neg (by simp [hskip]), if_pos hscript]

theorem effectiveDist_of_ne_nil (b : Option V0.BuildConfig) {dist : List Dist} (h : dist ≠ []) :
    effectiveDist b dist = .ok dist := by
  unfold effectiveDist
  rw [if_neg (by simp [h])]

theorem upgradeProduct_build_script_err (f : Factories) (dflt : Bool) (k : String) (p : Product)
    (hskip : p.build.skip = false) (hscript : p.build.script ≠ []) :
    upgradeProduct f dflt k p = .error (.buildScriptUnsupported k) := by
  unfold upgradeProduct
  rw [buildSection_script_error hskip hscript]
  rfl

/-- C3 (amended): for every legacy product whose build is not skipped and
whose build section has a non-empty `script`, the per-product translation
fails with the unsupported-feature error naming that product. -/
theorem c3_build_script_error (f : Factories) (dflt : Bool) (k : String) (p : Product)
    (hskip : p.build.skip = false) (hscript : p.build.script ≠ []) :
    upgradeProduct f dflt k p = .error (.buildScriptUnsupported k) :=
  upgradeProduct_build_script_err f dflt k p hskip hscript

theorem c3_build_script_error_witness :
    upgradeProduct failFactories false "p" { build := { script := "x".toList } }
      = .error (.buildScriptUnsupported "p") :=
  c3_build_script_error failFactories false "p" { build := { script := "x".toList } }
    rfl (by decide)

/-- C3's universal claim fails on the code: a product whose build section
is skipped migrates successfully even with a non-empty build script. -/
theorem c3_counterexample :
    upgradeProduct failFactories false "p"
      { build := { skip := true, script := "x".toList }
        dist := [{ distType := { type_ := "bin", info := .bin {} } }] }
      = .ok { build := none, run := none
              dist := some { outputDir := none
                             disters := some [("bin", { type_ := some "bin", script := none, config := none })] }
              docker := none, dependencies := none, publish := none } := by decide

/-- C10 (amended): a skipped build bypasses the entire build-section
translation (including the build-script error): the build section
upgrades to `none`, the build script cannot influence the result, and a
successfully migrated product has no build section; but when the
product's dist list is empty the engine instead crashes dereferencing
the nil build configuration. -/
theorem c10_skip_bypasses_build (f : Factories) (dflt : Bool) (k : String) (p : Product)
    (hskip : p.build.skip = true) :
    buildSection k p = .ok none
    ∧ (∀ s' : Str,
        upgradeProduct f dflt k { p with build := { p.build with script := s' } }
          = upgradeProduct f dflt k p)
    ∧ (∀ prod : V0.ProductConfig, upgradeProduct f dflt k p = .ok prod → prod.build = none)
    ∧ (p.dist = [] → upgradeProduct f dflt k p = .error .nilBuildCrash) := by
  refine ⟨buildSection_skip hskip, ?_, ?_, ?_⟩
  · intro s'
    unfold upgradeProduct
    rw [@buildSection_skip k { p with build := { p.build with script := s' } } hskip,
      @buildSection_skip k p hskip]
  · intro prod hok
    obtain ⟨build, effDist, dp, docker, hb, _, _, _, hprod⟩ := upgradeProduct_ok_elim hok
    rw [buildSection_skip hskip] at hb
    cases hb
    rw [hprod]
  · intro hdist
    unfold upgradeProduct
    rw [buildSection_skip hskip, except_bind_ok]
    have : effectiveDist none p.dist = .error .nilBuildCrash := by
      unfold effectiveDist
      rw [if_pos (by simp [hdist])]
    rw [this]
    rfl

theorem c10_skip_bypasses_build_witness :
    buildSection "p" { build := { skip := true, script := "x".toList }, dist := [] } = .ok none
    ∧ upgradeProduct failFactories false "p"
        { build := { skip := true, script := "x".toList }, dist := [] } = .error .nilBuildCrash := by
  have h := c10_skip_bypasses_build failFactories false "p"
    { build := { skip := true, script := "x".toList }, dist := [] } rfl
  exact ⟨h.1, h.2.2.2 rfl⟩

/-- C10's claim that every skipped-build product with a non-empty build
script migrates successfully fails on the code: with an empty dist list
the engine dereferences the nil build configuration (a runtime panic)
instead of succeeding. -/
theorem c10_counterexample :
    upgradeProduct failFactories false "p"
      { build := { skip := true, script := "x".toList }, dist := [] }
      = .error .nilBuildCrash := by decide

end Legacy

namespace Legacy

theorem buildSection_ok_exists {k : String} {p : Product} (hskip : p.build.skip = false)
    (hscript : p.build.script = []) : ∃ b, buildSection k p = .ok b := by
  unfold buildSection
  rw [if_neg (by simp [hskip]), if_neg (by simp [hscript])]
  exact ⟨_, rfl⟩

theorem upgradeProduct_many_dists (f : Factories) (dflt : Bool) (k : String) (p : Product)
    (hlen : 1 < p.dist.length) {build : Option V0.BuildConfig}
    (hb : buildSection k p = .ok build) :
    upgradeProduct f dflt k p = .error (.tooManyDists k) := by
  unfold upgradeProduct
  rw [hb, except_bind_ok,
    effectiveDist_of_ne_nil build (by intro hnil; rw [hnil] at hlen; simp at hlen),
    except_bind_ok]
  cases hd : p.dist with
  | nil => rw [hd] at hlen; simp at hlen
  | cons d rest =>
    cases rest with
    | nil => rw [hd] at hlen; simp at hlen
    | cons d2 rest2 => rfl

theorem distSection_ok_elim {f : Factories} {k : String} {d : Dist}
    {res : V0.DistConfig × Option (List String) × Option V0.PublishConfig}
    (h : distSection f k d = .ok res) :
    ∃ (tsw : String × Option Str × Option Bytes) (cfg : Option MapSlice)
      (pub : Option V0.PublishConfig),
      distTypeSwitch k d.distType = .ok tsw ∧
      disterConfigSection f k d.distType.type_ tsw.2.2 = .ok cfg ∧
      publishSection f k d.publish = .ok pub ∧
      res = ({ outputDir := nonEmptyOpt d.outputDir
               disters := some [(tsw.1, { type_ := some tsw.1
                                          script := distScriptAssembly tsw.2.1 d.inputDir d.script
                                          config := cfg })] },
             (if d.inputProducts.length > 0 then some (d.inputProducts.foldl addDepIfNotPresent []) else none),
             pub) := by
  unfold distSection at h
  rcases except_bind_ok_iff.mp h with ⟨tsw, ht, h⟩
  obtain ⟨tn, script0, bytes⟩ := tsw
  rcases except_bind_ok_iff.mp h with ⟨cfg, hc, h⟩
  rcases except_bind_ok_iff.mp h with ⟨pub, hp, h⟩
  refine ⟨(tn, script0, bytes), cfg, pub, ht, hc, hp, ?_⟩
  simpa [pure, Except.pure] using h.symm

theorem distTypeSwitch_ok_name {k : String} {di : DistInfo} {tsw : String × Option Str × Option Bytes}
    (h : distTypeSwitch k di = .ok tsw) :
    translatedDistTypeName di.type_ = some tsw.1 := by
  unfold distTypeSwitch at h
  split at h
  · rename_i heq1 heq2
    cases h; rw [heq1]; rfl
  · rename_i heq1 heq2
    split at h
    · split at h
      · exact absurd h (by simp)
      · cases h; rw [heq1]; rfl
    · cases h; rw [heq1]; rfl
  · rename_i heq1 heq2
    cases h; rw [heq1]; rfl
  · rename_i heq1 heq2
    cases h; rw [heq1]; rfl
  · rename_i heq1 heq2
    cases h; rw [heq1]; rfl
  · split at h <;> exact absurd h (by simp)

end Legacy

namespace Legacy

/-- C4: a legacy product with more than one dist entry fails migration
with an unsupported-feature error naming that product; a product with
exactly one dist entry that migrates successfully has exactly one dister
entry, keyed by the translated plugin type name. -/
theorem c4_dist_entry_count (f : Factories) (dflt : Bool) (k : String) (p : Product) :
    (1 < p.dist.length →
      ∃ e : UpgradeError, upgradeProduct f dflt k p = .error e ∧
        e.isUnsupportedFeature = true ∧ e.productOf = some k)
    ∧ (∀ (d : Dist) (prod : V0.ProductConfig), p.dist = [d] →
        upgradeProduct f dflt k p = .ok prod →
        ∃ (tn : String) (dc : V0.DistConfig) (dcfg : V0.DisterConfig),
          prod.dist = some dc ∧ dc.disters = some [(tn, dcfg)] ∧ dcfg.type_ = some tn ∧
          translatedDistTypeName d.distType.type_ = some tn) := by
  constructor
  · intro hlen
    by_cases hskip : p.build.skip = true
    · exact ⟨.tooManyDists k,
        upgradeProduct_many_dists f dflt k p hlen (buildSection_skip hskip), rfl, rfl⟩
    · have hskip' : p.build.skip = false := by
        revert hskip; cases p.build.skip <;> simp
      by_cases hscript : p.build.script = []
      · obtain ⟨b, hb⟩ := buildSection_ok_exists hskip' hscript
        exact ⟨.tooManyDists k, upgradeProduct_many_dists f dflt k p hlen hb, rfl, rfl⟩
      · exact ⟨.buildScriptUnsupported k,
          upgradeProduct_build_script_err f dflt k p hskip' hscript, rfl, rfl⟩
  · intro d prod hd hok
    obtain ⟨build, effDist, dp, docker, hb, he, hmatch, hdock, hprod⟩ := upgradeProduct_ok_elim hok
    rw [hd, effectiveDist_of_ne_nil build (by simp)] at he
    have heff : effDist = [d] := (Except.ok.inj he).symm
    subst heff
    simp only at hmatch
    rcases except_map_ok_iff.mp hmatch with ⟨dr, hdr, hdp⟩
    obtain ⟨tsw, cfg, pub, ht, hc, hpb, hres⟩ := distSection_ok_elim hdr
    refine ⟨tsw.1, dr.1,
      { type_ := some tsw.1
        script := distScriptAssembly tsw.2.1 d.inputDir d.script
        config := cfg }, ?_, ?_, rfl, distTypeSwitch_ok_name ht⟩
    · rw [hprod, ← hdp]
    · rw [hres]
  
theorem c4_dist_entry_count_witness :
    (∃ e : UpgradeError,
      upgradeProduct failFactories false "p"
        { dist := [{ distType := { type_ := "bin", info := .bin {} } },
                   { distType := { type_ := "manual", info := .manual {} } }] } = .error e ∧
      e.isUnsupportedFeature = true ∧ e.productOf = some "p")
    ∧ (∃ (tn : String) (dc : V0.DistConfig) (dcfg : V0.DisterConfig),
        (V0.ProductConfig.mk (some {}) none
          (some { outputDir := none
                  disters := some [("bin", { type_ := some "bin", script := none, config := none })] })
          none none none).dist = some dc ∧
        dc.disters = some [(tn, dcfg)] ∧ dcfg.type_ = some tn ∧
        translatedDistTypeName "bin" = some tn) := by
  constructor
  · exact (c4_dist_entry_count failFactories false "p"
      { dist := [{ distType := { type_ := "bin", info := .bin {} } },
                 { distType := { type_ := "manual", info := .manual {} } }] }).1 (by decide)
  · exact (c4_dist_entry_count failFactories false "p"
      { dist := [{ distType := { type_ := "bin", info := .bin {} } }] }).2
      { distType := { type_ := "bin", info := .bin {} } } _ rfl (by decide)

end Legacy

namespace Legacy

theorem effectiveDist_synth {oa : List OSArch} (h : 0 < oa.length) (b : V0.BuildConfig)
    (hbo : b.osArchs = some oa) :
    effectiveDist (some b) [] = .ok [synthesizedOSArchBinDist oa] := by
  unfold effectiveDist
  rw [if_pos (by simp)]
  show (match b.osArchs with
        | some osArchs =>
          if osArchs.length > 0 then Except.ok [synthesizedOSArchBinDist osArchs]
          else Except.ok ([] : List Dist)
        | none => Except.ok ([] : List Dist)) = _
  rw [hbo]
  show (if oa.length > 0 then Except.ok [synthesizedOSArchBinDist oa]
        else Except.ok ([] : List Dist)) = _
  rw [if_pos h]

/-- C5 (amended): for a legacy product whose build section migrates
(build not skipped, no build script), with no dist entry but a non-empty
OS/arch target list, the engine synthesizes the default `os-arch-bin`
dist entry — flagged legacy-sourced and carrying the build OS/arch list —
and the migrated product's single dister is keyed `os-arch-bin`; the
synthesis never fires when the dist list is non-empty. -/
theorem c5_default_dist_synthesis (f : Factories) (dflt : Bool) (k : String) (p : Product)
    (hskip : p.build.skip = false) (hscript : p.build.script = [])
    (hdist : p.dist = []) (hosa : p.build.osArchs ≠ []) :
    (∃ b : V0.BuildConfig, buildSection k p = .ok (some b) ∧
      b.osArchs = some p.build.osArchs ∧
      effectiveDist (some b) p.dist = .ok [synthesizedOSArchBinDist p.build.osArchs] ∧
      synthesizedOSArchBinDist p.build.osArchs =
        { distType := { type_ := "os-arch-bin"
                        info := .osarchbin { legacy := true, osArchs := p.build.osArchs } } })
    ∧ (∀ prod : V0.ProductConfig, upgradeProduct f dflt k p = .ok prod →
        ∃ (dc : V0.DistConfig) (dcfg : V0.DisterConfig),
          prod.dist = some dc ∧ dc.disters = some [(osArchBinDisterTypeName, dcfg)])
    ∧ (∀ (b' : Option V0.BuildConfig) (dist' : List Dist), dist' ≠ [] →
        effectiveDist b' dist' = .ok dist') := by
  have hosaLen : 0 < p.build.osArchs.length := List.length_pos.mpr hosa
  have hb : buildSection k p = .ok (some
      { mainPkg := nonEmptyOpt p.build.mainPkg
        outputDir := nonEmptyOpt p.build.outputDir
        buildArgsScript := if p.build.buildArgsScript = [] then none else some p.build.buildArgsScript
        versionVar := nonEmptyOpt p.build.versionVar
        environment := if p.build.environment.length > 0 then some p.build.environment else none
        osArchs := some p.build.osArchs }) := by
    unfold buildSection
    rw [if_neg (by simp [hskip]), if_neg (by simp [hscript]), if_pos hosaLen]
  have heff := effectiveDist_synth hosaLen (
      { mainPkg := nonEmptyOpt p.build.mainPkg
        outputDir := nonEmptyOpt p.build.outputDir
        buildArgsScript := if p.build.buildArgsScript = [] then none else some p.build.buildArgsScript
        versionVar := nonEmptyOpt p.build.versionVar
        environment := if p.build.environment.length > 0 then some p.build.environment else none
        osArchs := some p.build.osArchs } : V0.BuildConfig) rfl
  refine ⟨⟨_, hb, rfl, by rw [hdist]; exact heff, rfl⟩, ?_,
    fun b' d' h => effectiveDist_of_ne_nil b' h⟩
  intro prod hok
  obtain ⟨build, effDist, dp, docker, hb', he, hmatch, hdock, hprod⟩ := upgradeProduct_ok_elim hok
  rw [hb] at hb'
  have hbuild := (Except.ok.inj hb').symm
  rw [hbuild, hdist, heff] at he
  have heffv : effDist = [synthesizedOSArchBinDist p.build.osArchs] := (Except.ok.inj he).symm
  subst heffv
  simp only at hmatch
  rcases except_map_ok_iff.mp hmatch with ⟨dr, hdr, hdp⟩
  obtain ⟨tsw, cfg, pub, ht, hc, hpb, hres⟩ := distSection_ok_elim hdr
  have htv : tsw = (osArchBinDisterTypeName, none,
      some (.marshaledOSArchBinDist { legacy := true, osArchs := p.build.osArchs })) := by
    have hts : distTypeSwitch k (synthesizedOSArchBinDist p.build.osArchs).distType =
        .ok (osArchBinDisterTypeName, none,
          some (.marshaledOSArchBinDist { legacy := true, osArchs := p.build.osArchs })) := rfl
    rw [hts] at ht
    exact (Except.ok.inj ht).symm
  refine ⟨dr.1,
    { type_ := some osArchBinDisterTypeName
      script := distScriptAssembly none "" []
      config := cfg }, ?_, ?_⟩
  · rw [hprod, ← hdp]
  · rw [hres, htv]
    rfl

theorem c5_default_dist_synthesis_witness :
    (∃ b : V0.BuildConfig,
      buildSection "p" { build := { osArchs := [{ os := "linux", arch := "amd64" }] }, dist := [] }
        = .ok (some b) ∧
      b.osArchs = some [{ os := "linux", arch := "amd64" }] ∧
      effectiveDist (some b) ([] : List Dist)
        = .ok [synthesizedOSArchBinDist [{ os := "linux", arch := "amd64" }]] ∧
      synthesizedOSArchBinDist [{ os := "linux", arch := "amd64" }] =
        { distType := { type_ := "os-arch-bin"
                        info := .osarchbin { legacy := true
                                             osArchs := [{ os := "linux", arch := "amd64" }] } } })
    ∧ (∃ (dc : V0.DistConfig) (dcfg : V0.DisterConfig),
        (V0.ProductConfig.mk
          (some { osArchs := some [{ os := "linux", arch := "amd64" }] }) none
          (some { outputDir := none
                  disters := some [("os-arch-bin",
                    { type_ := some "os-arch-bin", script := none, config := some { entries := [] } })] })
          none none none).dist = some dc ∧
        dc.disters = some [(osArchBinDisterTypeName, dcfg)])
    ∧ effectiveDist none [{ distType := { type_ := "bin", info := .bin {} } }]
        = .ok [{ distType := { type_ := "bin", info := .bin {} } }] := by
  have h := c5_default_dist_synthesis okFactories false "p"
    { build := { osArchs := [{ os := "linux", arch := "amd64" }] }, dist := [] }
    rfl rfl rfl (by decide)
  exact ⟨h.1, h.2.1 _ (by decide), h.2.2 none _ (by decide)⟩

/-- C6: the single-or-list decoder for the legacy dist section first
attempts list decoding (an explicitly-given empty list is the "at least
one entry" error, a non-empty list is taken as is); if list decoding
fails it decodes a single dist and wraps it in a one-element list; if
both fail it surfaces the single-value decode error. -/
theorem c6_raw_dist_configs_unmarshal (la : Except String (List Dist)) (sa : Except String Dist) :
    (la = .ok [] → rawDistConfigsUnmarshal la sa = .error .atLeastOneRequired)
    ∧ (∀ (d : Dist) (ds : List Dist), la = .ok (d :: ds) → rawDistConfigsUnmarshal la sa = .ok (d :: ds))
    ∧ (∀ (e : String) (d : Dist), la = .error e → sa = .ok d → rawDistConfigsUnmarshal la sa = .ok [d])
    ∧ (∀ (e e' : String), la = .error e → sa = .error e' →
        rawDistConfigsUnmarshal la sa = .error (.yaml e')) := by
  refine ⟨?_, ?_, ?_, ?_⟩
  · rintro rfl; rfl
  · rintro d ds rfl; rfl
  · rintro e d rfl rfl; rfl
  · rintro e e' rfl rfl; rfl

theorem c6_raw_dist_configs_unmarshal_witness :
    rawDistConfigsUnmarshal (.ok []) (.ok {}) = .error .atLeastOneRequired
    ∧ rawDistConfigsUnmarshal (.ok [{ inputDir := "in" }]) (.ok {}) = .ok [{ inputDir := "in" }]
    ∧ rawDistConfigsUnmarshal (.error "not a list") (.ok { inputDir := "in" }) = .ok [{ inputDir := "in" }]
    ∧ rawDistConfigsUnmarshal (.error "not a list") (.error "bad value") = .error (.yaml "bad value") :=
  ⟨(c6_raw_dist_configs_unmarshal (.ok []) (.ok {})).1 rfl,
   (c6_raw_dist_configs_unmarshal (.ok [{ inputDir := "in" }]) (.ok {})).2.1 _ _ rfl,
   (c6_raw_dist_configs_unmarshal (.error "not a list") (.ok { inputDir := "in" })).2.2.1 _ _ rfl rfl,
   (c6_raw_dist_configs_unmarshal (.error "not a list") (.error "bad value")).2.2.2 _ _ rfl rfl⟩

/-- C1 (amended): the engine never produces the "unchanged" sentinel —
every successful `upgradeLegacyConfig` returns a non-nil (possibly
empty) configuration, which `upgradeConfig` passes through unchanged, so
output bytes are always written on success. -/
theorem c1_no_unchanged_sentinel (f : Factories) (cfg : Project) :
    (∀ r : Option V0.ProjectConfig, upgradeLegacyConfig f cfg = .ok r → r.isSome = true)
    ∧ upgradeConfig f cfg = upgradeLegacyConfig f cfg := by
  constructor
  · intro r h
    unfold upgradeLegacyConfig at h
    rcases except_bind_ok_iff.mp h with ⟨products, _, hfin⟩
    cases hfin
    rfl
  · unfold upgradeConfig
    cases h : upgradeLegacyConfig f cfg with
    | error e => rfl
    | ok r =>
      cases r with
      | none => rfl
      | some c => rfl

theorem c1_no_unchanged_sentinel_witness :
    (some ({} : V0.ProjectConfig)).isSome = true
    ∧ upgradeConfig failFactories {} = upgradeLegacyConfig failFactories {} :=
  ⟨(c1_no_unchanged_sentinel failFactories {}).1 (some {}) (by decide),
   (c1_no_unchanged_sentinel failFactories {}).2⟩

/-- C1 fails on the code as stated: the empty legacy project — whose
translation is indistinguishable from no configuration — upgrades to a
non-nil empty current configuration (hence non-nil output bytes), not to
the `none` ("unchanged") sentinel. -/
theorem c1_counterexample :
    upgradeLegacyConfig failFactories {} = .ok (some {})
    ∧ upgradeLegacyConfig failFactories {} ≠ .ok none
    ∧ upgradeConfig failFactories {} = .ok (some {}) :=
  ⟨by decide, by decide, by decide⟩

end Legacy

namespace Legacy

theorem foldl_addDep_eq_firstSeenAux :
    ∀ (l acc : List String), l.foldl addDepIfNotPresent acc = acc ++ firstSeenAux acc l := by
  intro l
  induction l with
  | nil => intro acc; simp [firstSeenAux]
  | cons x xs ih =>
    intro acc
    by_cases hx : x ∈ acc
    · rw [List.foldl_cons]
      show List.foldl _ (addDepIfNotPresent acc x) xs = _
      rw [show addDepIfNotPresent acc x = acc from by simp [addDepIfNotPresent, hx]]
      rw [ih acc]
      simp [firstSeenAux, hx]
    · rw [List.foldl_cons]
      show List.foldl _ (addDepIfNotPresent acc x) xs = _
      rw [show addDepIfNotPresent acc x = acc ++ [x] from by simp [addDepIfNotPresent, hx]]
      rw [ih (acc ++ [x])]
      simp [firstSeenAux, hx]

theorem dockerDepStep_ok_deps {k : String} {st : Option (List String) × Option (List String)}
    {dep : DockerDep} {res : Option (List String) × Option (List String)}
    (h : dockerDepStep k st dep = .ok res) :
    res.2 = some (if dep.product ≠ k then addDepIfNotPresent (st.2.getD []) dep.product
                  else st.2.getD []) := by
  unfold dockerDepStep at h
  rcases except_bind_ok_iff.mp h with ⟨inp, _, hp⟩
  cases hp
  rfl

theorem dockerDepFold_deps (k : String) :
    ∀ (deps : List DockerDep) (st res : Option (List String) × Option (List String)),
      deps.foldlM (dockerDepStep k) st = .ok res →
      res.2.getD [] = ((deps.map (·.product)).filter (fun q => q ≠ k)).foldl
        addDepIfNotPresent (st.2.getD []) := by
  intro deps
  induction deps with
  | nil =>
    intro st res h
    have : st = res := by simpa [List.foldlM, pure, Except.pure] using h
    subst this
    rfl
  | cons dep rest ih =>
    intro st res h
    rw [List.foldlM_cons] at h
    rcases except_bind_ok_iff.mp h with ⟨st1, hstep, hrest⟩
    have hd := dockerDepStep_ok_deps hstep
    rw [ih st1 res hrest, hd]
    by_cases hp : dep.product = k
    · simp [hp]
    · simp [hp]

theorem dockerImageUpgrade_ok_deps {f : Factories} {k : String} {deps : Option (List String)}
    {img : DockerImage} {res : V0.DockerBuilderConfig × Option (List String)}
    (h : dockerImageUpgrade f k deps img = .ok res) :
    res.2.getD [] = ((img.deps.map (·.product)).filter (fun q => q ≠ k)).foldl
      addDepIfNotPresent (deps.getD []) := by
  unfold dockerImageUpgrade at h
  rcases except_bind_ok_iff.mp h with ⟨st1, hfold, h⟩
  obtain ⟨inp, d1⟩ := st1
  rcases except_bind_ok_iff.mp h with ⟨bt, hbt, hp⟩
  obtain ⟨btn, bcfg⟩ := bt
  cases hp
  exact dockerDepFold_deps k img.deps (none, deps) (inp, d1) hfold

theorem dockerSection_fold_deps (f : Factories) (k : String) :
    ∀ (pairs : List (Nat × DockerImage)) (start : List (String × V0.DockerBuilderConfig) × Option (List String))
      (out : List (String × V0.DockerBuilderConfig) × Option (List String)),
      pairs.foldlM
        (fun (acc : List (String × V0.DockerBuilderConfig) × Option (List String)) (iimg : Nat × DockerImage) => do
          let (cfg, deps') ← dockerImageUpgrade f k acc.2 iimg.2
          .ok (acc.1 ++ [("docker-image-" ++ toString iimg.1, cfg)], deps'))
        start = .ok out →
      out.2.getD [] = (((pairs.map (·.2)).map (fun img => img.deps.map (·.product))).flatten.filter
        (fun q => q ≠ k)).foldl addDepIfNotPresent (start.2.getD []) := by
  intro pairs
  induction pairs with
  | nil =>
    intro start out h
    have : start = out := by simpa [List.foldlM, pure, Except.pure] using h
    subst this
    rfl
  | cons iimg rest ih =>
    intro start out h
    rw [List.foldlM_cons] at h
    rcases except_bind_ok_iff.mp h with ⟨cd, himg, hrest⟩
    obtain ⟨cfg1, deps1⟩ := cd
    rcases except_bind_ok_iff.mp himg with ⟨xy, hup, hpure⟩
    obtain ⟨cfg2, deps2⟩ := xy
    cases hpure
    have h1 := dockerImageUpgrade_ok_deps hup
    have h2 := ih _ out hrest
    rw [h2]
    show _ = ((((iimg.2.deps.map (·.product)) ++ ((rest.map (·.2)).map
        (fun img => img.deps.map (·.product))).flatten).filter (fun q => q ≠ k)).foldl
        addDepIfNotPresent (start.2.getD []))
    rw [List.filter_append, List.foldl_append, ← h1]

theorem dockerSection_ok_deps {f : Factories} {k : String} {imgs : List DockerImage}
    {deps0 : Option (List String)} {res : Option V0.DockerConfig × Option (List String)}
    (h : dockerSection f k imgs deps0 = .ok res) :
    res.2.getD [] = ((dockerDepProducts imgs).filter (fun q => q ≠ k)).foldl
      addDepIfNotPresent (deps0.getD []) := by
  unfold dockerSection at h
  by_cases hlen : imgs.length > 0
  · rw [if_pos hlen] at h
    rcases except_bind_ok_iff.mp h with ⟨bd, hfold, hpure⟩
    obtain ⟨builders, deps1⟩ := bd
    cases hpure
    have := dockerSection_fold_deps f k imgs.enum ([], deps0) (builders, deps1) hfold
    rw [this]
    show _ = ((dockerDepProducts imgs).filter (fun q => q ≠ k)).foldl addDepIfNotPresent (deps0.getD [])
    have henum : imgs.enum.map (·.2) = imgs := by
      simpa using List.enum_map_snd imgs
    rw [henum]
    rfl
  · rw [if_neg hlen] at h
    cases h
    have himgs : imgs = [] := by
      cases imgs with
      | nil => rfl
      | cons i is => simp at hlen
    subst himgs
    rfl

theorem effectiveDist_ok_inputs {b : Option V0.BuildConfig} {dist res : List Dist}
    (h : effectiveDist b dist = .ok res) :
    distInputProducts res = distInputProducts dist := by
  unfold effectiveDist at h
  by_cases h0 : dist.length = 0
  · rw [if_pos h0] at h
    have hdist : dist = [] := List.length_eq_zero.mp h0
    subst hdist
    cases b with
    | none => cases h
    | some bb =>
      have h' : (match bb.osArchs with
          | some osArchs =>
            if osArchs.length > 0 then Except.ok [synthesizedOSArchBinDist osArchs]
            else Except.ok ([] : List Dist)
          | none => Except.ok ([] : List Dist)) = Except.ok res := h
      rcases hoa : bb.osArchs with _ | oa
      · rw [hoa] at h'
        have : res = [] := (Except.ok.inj h').symm
        subst this
        rfl
      · rw [hoa] at h'
        have h'' : (if oa.length > 0 then Except.ok [synthesizedOSArchBinDist oa]
            else Except.ok ([] : List Dist)) = Except.ok res := h'
        by_cases hl : oa.length > 0
        · rw [if_pos hl] at h''
          have : res = [synthesizedOSArchBinDist oa] := (Except.ok.inj h'').symm
          subst this
          rfl
        · rw [if_neg hl] at h''
          have : res = [] := (Except.ok.inj h'').symm
          subst this
          rfl
  · rw [if_neg h0] at h
    cases h
    rfl

end Legacy

namespace Legacy

/-- C2 (amended): the migrated dependency list is the union of the dist
input-product references and the docker dependency-derived references,
de-duplicated preserving first-seen insertion order, with the product's
own identifier excluded from the docker-derived references (dist
input-product references are copied without a self-reference check); in
particular product `c` with docker dependencies
`[(b, docker), (b, bin), (a, docker)]` migrates to the dependency list
`[b, a]`. -/
theorem c2_dependency_list :
    (∀ (f : Factories) (dflt : Bool) (k : String) (p : Product) (prod : V0.ProductConfig),
      upgradeProduct f dflt k p = .ok prod →
      prod.dependencies.getD [] =
        firstSeen (distInputProducts p.dist
          ++ (dockerDepProducts p.dockerImages).filter (fun q => q ≠ k)))
    ∧ (upgradeProduct failFactories false "c"
        { dockerImages := [{ deps := [{ product := "b", type_ := "docker" },
                                      { product := "b", type_ := "bin" },
                                      { product := "a", type_ := "docker" }] }] }).map
        (·.dependencies) = .ok (some ["b", "a"]) := by
  constructor
  · intro f dflt k p prod hok
    obtain ⟨build, effDist, dp, docker, hb, he, hmatch, hdock, hprod⟩ := upgradeProduct_ok_elim hok
    have hdep : prod.dependencies = docker.2 := by rw [hprod]
    have hdock2 := dockerSection_ok_deps hdock
    have hinputs : distInputProducts effDist = distInputProducts p.dist := effectiveDist_ok_inputs he
    have hdeps0 : dp.2.1.getD [] = (distInputProducts p.dist).foldl addDepIfNotPresent [] := by
      cases effDist with
      | nil =>
        simp only at hmatch
        have : dp = (none, none, none) := (Except.ok.inj hmatch).symm
        subst this
        rw [← hinputs]
        rfl
      | cons d rest =>
        cases rest with
        | nil =>
          simp only at hmatch
          rcases except_map_ok_iff.mp hmatch with ⟨dr, hdr, hdp⟩
          obtain ⟨tsw, cfg, pub, ht, hc, hpb, hres⟩ := distSection_ok_elim hdr
          rw [← hdp]
          show dr.2.1.getD [] = _
          rw [hres]
          rw [← hinputs]
          show (if d.inputProducts.length > 0 then
              some (d.inputProducts.foldl addDepIfNotPresent []) else none).getD []
            = (distInputProducts [d]).foldl addDepIfNotPresent []
          by_cases hl : d.inputProducts.length > 0
          · rw [if_pos hl]
            rfl
          · rw [if_neg hl]
            have : d.inputProducts = [] := by
              cases hi : d.inputProducts with
              | nil => rfl
              | cons q qs => rw [hi] at hl; simp at hl
            show ([] : List String) = (distInputProducts [d]).foldl addDepIfNotPresent []
            rw [show distInputProducts [d] = d.inputProducts from rfl, this]
            rfl
        | cons d2 rest2 =>
          simp only at hmatch
          cases hmatch
    rw [hdep, hdock2, hdeps0, ← List.foldl_append]
    rw [foldl_addDep_eq_firstSeenAux]
    rfl
  · decide

theorem c2_dependency_list_witness :
    (V0.ProductConfig.mk (some {}) none none none none none).dependencies.getD [] =
      firstSeen (distInputProducts ([] : List Dist)
        ++ (dockerDepProducts ([] : List DockerImage)).filter (fun q => q ≠ "k")) :=
  c2_dependency_list.1 failFactories false "k" {} _ (by decide)

/-- C2's "never contains a self-reference" fails on the code: a legacy
dist `input-products` entry naming the product itself is copied into the
dependency list unfiltered (only the docker path excludes self). -/
theorem c2_counterexample :
    (upgradeProduct failFactories false "c"
      { dist := [{ inputProducts := ["c"]
                   distType := { type_ := "bin", info := .bin {} } }] }).map (·.dependencies)
      = .ok (some ["c"]) := by decide

end Legacy

namespace Legacy

theorem binMarker_notin_assembly (inputDir : String) (userScript : Str)
    (hinput : binDistStartMarker ∉ splitNl (inputDirScriptContent inputDir))
    (hscript : binDistStartMarker ∉ splitNl (translateEnvVars userScript)) :
    binDistStartMarker ∉ splitNl ((distScriptAssembly none inputDir userScript).getD []) := by
  unfold distScriptAssembly
  generalize hq1 : inputDirScriptContent inputDir = p1 at hinput ⊢
  generalize hq2 : translateEnvVars userScript = p2 at hscript ⊢
  have hsheb : binDistStartMarker ≠ "#!/bin/bash".toList := by decide
  have hnil : binDistStartMarker ∉ splitNl ([] : Str) := by decide
  by_cases hI : inputDir ≠ ""
  · rw [if_pos hI]
    by_cases hS : userScript ≠ []
    · rw [if_pos hS]
      intro hmem
      have hmem' : binDistStartMarker ∈ splitNl
          (appendToScript (appendToScript [] p1) p2) := hmem
      rcases mem_splitNl_appendToScript (appendToScript [] p1) p2
          (Or.inr (appendToScript_endsWithNewline [] p1)) hmem' with
        h | h | h
      · exact hsheb h
      · rcases mem_splitNl_appendToScript [] p1 (Or.inl rfl) h with
          h' | h' | h'
        · exact hsheb h'
        · exact hnil h'
        · exact hinput h'
      · exact hscript h
    · rw [if_neg hS]
      intro hmem
      have hmem' : binDistStartMarker ∈ splitNl
          (appendToScript [] p1) := hmem
      rcases mem_splitNl_appendToScript [] p1 (Or.inl rfl) hmem' with
        h | h | h
      · exact hsheb h
      · exact hnil h
      · exact hinput h
  · rw [if_neg hI]
    by_cases hS : userScript ≠ []
    · rw [if_pos hS]
      intro hmem
      have hmem' : binDistStartMarker ∈ splitNl
          (appendToScript [] p2) := hmem
      rcases mem_splitNl_appendToScript [] p2 (Or.inl rfl) hmem' with
        h | h | h
      · exact hsheb h
      · exact hnil h
      · exact hscript h
    · rw [if_neg hS]
      exact hnil

theorem binMarker_in_assembly {s0 : Str} (inputDir : String) (userScript : Str)
    (hA0ne : s0 ≠ []) (hA0nl : endsWithNewline s0 = true)
    (hmem0 : binDistStartMarker ∈ splitNl s0) :
    binDistStartMarker ∈ splitNl ((distScriptAssembly (some s0) inputDir userScript).getD [])
    ∧ ∃ t : Str, distScriptAssembly (some s0) inputDir userScript = some (s0 ++ t) := by
  have hmne : binDistStartMarker ≠ [] := by decide
  unfold distScriptAssembly
  generalize hq1 : inputDirScriptContent inputDir = p1
  generalize hq2 : translateEnvVars userScript = p2
  by_cases hI : inputDir ≠ ""
  · rw [if_pos hI]
    have hmem1 := mem_splitNl_appendToScript_left s0 p1 hA0ne hA0nl hmem0 hmne
    obtain ⟨t1, ht1⟩ := appendToScript_of_ne_nil s0 p1 hA0ne
    by_cases hS : userScript ≠ []
    · rw [if_pos hS]
      have hA1ne := appendToScript_ne_nil s0 p1
      have hA1nl := appendToScript_endsWithNewline s0 p1
      refine ⟨mem_splitNl_appendToScript_left _ p2 hA1ne hA1nl hmem1 hmne, ?_⟩
      obtain ⟨t2, ht2⟩ := appendToScript_of_ne_nil (appendToScript s0 p1) p2 hA1ne
      refine ⟨t1 ++ t2, ?_⟩
      show some (appendToScript (appendToScript s0 p1) p2) = _
      rw [ht2, ht1, List.append_assoc]
    · rw [if_neg hS]
      exact ⟨hmem1, t1, by rw [show accumulateScript (some s0) p1
        = some (appendToScript s0 p1) from rfl, ht1]⟩
  · rw [if_neg hI]
    by_cases hS : userScript ≠ []
    · rw [if_pos hS]
      obtain ⟨t1, ht1⟩ := appendToScript_of_ne_nil s0 p2 hA0ne
      refine ⟨mem_splitNl_appendToScript_left s0 p2 hA0ne hA0nl hmem0 hmne, t1, ?_⟩
      show some (appendToScript s0 p2) = _
      rw [ht1]
    · rw [if_neg hS]
      exact ⟨hmem0, [], by rw [List.append_nil]⟩

end Legacy

namespace Legacy

/-- C8: for a legacy product with a single bin-type dist, the synthesized
launcher-script fragment (recognised by its start marker line) is absent
from the migrated dist script when `omit-init-sh` is absent or true, and
is appended to the dist script (first, before the other synthesized and
translated fragments) exactly when `omit-init-sh` is present and false.
The two marker hypotheses rule out a legacy dist script or `input-dir`
value that itself smuggles in the marker line. -/
theorem c8_bin_omit_init_sh (f : Factories) (dflt : Bool) (k : String) (p : Product)
    (d : Dist) (b : BinDist) (prod : V0.ProductConfig)
    (hd : p.dist = [d]) (hty : d.distType.type_ = "bin") (hinfo : d.distType.info = .bin b)
    (hok : upgradeProduct f dflt k p = .ok prod)
    (hscript : binDistStartMarker ∉ splitNl (translateEnvVars d.script))
    (hinput : binDistStartMarker ∉ splitNl (inputDirScriptContent d.inputDir)) :
    ∃ (dc : V0.DistConfig) (dcfg : V0.DisterConfig),
      prod.dist = some dc ∧ dc.disters = some [(binDisterTypeName, dcfg)] ∧
      ((b.omitInitSh = none ∨ b.omitInitSh = some true) →
        binDistStartMarker ∉ splitNl (dcfg.script.getD [])) ∧
      (b.omitInitSh = some false →
        binDistStartMarker ∈ splitNl (dcfg.script.getD []) ∧
        ∃ t : Str, dcfg.script = some (appendToScript [] binDistInitShScript ++ t)) := by
  obtain ⟨build, effDist, dp, docker, hb, he, hmatch, hdock, hprod⟩ := upgradeProduct_ok_elim hok
  rw [hd, effectiveDist_of_ne_nil build (by simp)] at he
  have heff : effDist = [d] := (Except.ok.inj he).symm
  subst heff
  simp only at hmatch
  rcases except_map_ok_iff.mp hmatch with ⟨dr, hdr, hdp⟩
  obtain ⟨tsw, cfg, pub, ht, hc, hpb, hres⟩ := distSection_ok_elim hdr
  have hdt : d.distType = { type_ := "bin", info := .bin b } := by
    rw [← hty, ← hinfo]
  rw [hdt] at ht
  have ht2 : (if b.omitInitSh = some false then
      (if b.initShTemplateFile ≠ "" then Except.error (UpgradeError.initShTemplateUnsupported k)
       else Except.ok ((binDisterTypeName, some (appendToScript [] binDistInitShScript), none) :
         String × Option Str × Option Bytes))
      else Except.ok ((binDisterTypeName, none, none) : String × Option Str × Option Bytes))
      = .ok tsw := ht
  by_cases homit : b.omitInitSh = some false
  · rw [if_pos homit] at ht2
    by_cases htmpl : b.initShTemplateFile ≠ ""
    · rw [if_pos htmpl] at ht2
      exact absurd ht2 (by simp)
    · rw [if_neg htmpl] at ht2
      have htsw := Except.ok.inj ht2
      subst htsw
      refine ⟨dr.1,
        { type_ := some binDisterTypeName
          script := distScriptAssembly (some (appendToScript [] binDistInitShScript)) d.inputDir d.script
          config := cfg }, ?_, ?_, ?_, ?_⟩
      · rw [hprod, ← hdp]
      · rw [hres]
      · intro hcase
        rcases hcase with hcase | hcase <;> rw [hcase] at homit <;> simp at homit
      · intro _
        have hmem0 : binDistStartMarker ∈ splitNl (appendToScript [] binDistInitShScript) := by
          set_option maxRecDepth 100000 in decide
        exact binMarker_in_assembly d.inputDir d.script
          (appendToScript_ne_nil [] binDistInitShScript)
          (appendToScript_endsWithNewline [] binDistInitShScript) hmem0
  · rw [if_neg homit] at ht2
    have htsw := Except.ok.inj ht2
    subst htsw
    refine ⟨dr.1,
      { type_ := some binDisterTypeName
        script := distScriptAssembly none d.inputDir d.script
        config := cfg }, ?_, ?_, ?_, ?_⟩
    · rw [hprod, ← hdp]
    · rw [hres]
    · intro _
      exact binMarker_notin_assembly d.inputDir d.script hinput hscript
    · intro hcase
      exact absurd hcase homit

end Legacy

namespace Legacy

theorem c8_bin_omit_init_sh_witness :
    ∃ (dc : V0.DistConfig) (dcfg : V0.DisterConfig),
      (V0.ProductConfig.mk (some {}) none
        (some { outputDir := none
                disters := some [("bin",
                  { type_ := some "bin"
                    script := some (appendToScript [] binDistInitShScript)
                    config := none })] })
        none none none).dist = some dc ∧
      dc.disters = some [(binDisterTypeName, dcfg)] ∧
      (((some false : Option Bool) = none ∨ (some false : Option Bool) = some true) →
        binDistStartMarker ∉ splitNl (dcfg.script.getD [])) ∧
      ((some false : Option Bool) = some false →
        binDistStartMarker ∈ splitNl (dcfg.script.getD []) ∧
        ∃ t : Str, dcfg.script = some (appendToScript [] binDistInitShScript ++ t)) :=
  c8_bin_omit_init_sh failFactories false "p"
    { dist := [{ distType := { type_ := "bin", info := .bin { omitInitSh := some false } } }] }
    { distType := { type_ := "bin", info := .bin { omitInitSh := some false } } }
    { omitInitSh := some false }
    (V0.ProductConfig.mk (some {}) none
      (some { outputDir := none
              disters := some [("bin",
                { type_ := some "bin"
                  script := some (appendToScript [] binDistInitShScript)
                  config := none })] })
      none none none)
    rfl rfl rfl
    (by set_option maxRecDepth 1000000 in decide)
    (by decide) (by decide)

end Legacy

namespace Legacy

/-- C5's universal claim fails on the code: for a product whose build is
skipped, with OS/arch targets and no dist entry, the engine does not
synthesize the default dist — it dereferences the nil build
configuration (a runtime panic). -/
theorem c5_counterexample :
    upgradeProduct failFactories false "p"
      { build := { skip := true, osArchs := [{ os := "linux", arch := "amd64" }] }, dist := [] }
      = .error .nilBuildCrash := by decide

end Legacy
